import Mathlib

/-
Formal model of the Realcolab RAG workflow orchestrator.

The repository contains two workflow implementations sharing one data model:
`RAGWorkflow` (src/index.ts) and `AgentWorkflow` (the unnamed TypeScript source,
referred to below as the agent source), plus the SQL schema of the relational
store. Both pipelines are embedded here as pure Lean functions.

Modelling conventions, used throughout:
- JavaScript strings are modelled as lists of characters (`Str`).
- JavaScript numbers used as similarity scores are modelled as `Int`; only
  their ordering matters to the orchestration logic under study.
- Embedding vectors are opaque; a vector is modelled as a `Nat` handle and the
  embedding service as a function `Str → Nat` applied pointwise to each text of
  a batched call (the service returns one vector per input text, in order).
- The durable step substrate's memoization is modelled by an explicit cache
  record per pipeline; a cached step returns its recorded value and performs no
  effect, an uncached step runs its body.
- The relational store and the vector index are lists of rows; SQLite
  INSERT OR REPLACE and Vectorize upsert replace the row with the same primary
  key in place or append, plain INSERT fails on a duplicate key; a
  SELECT ... WHERE id IN (...) returns the matching rows in table order.
-/

namespace Realcolab

/-- JavaScript strings are modelled as lists of characters. -/
abbrev Str := List Char

/-- Fuel-driven decimal rendering of a natural number, little helper for
`natChars`. The fuel bounds the number of divisions by 10. -/
def natCharsAux : Nat → Nat → List Char
  | 0, _ => []
  | fuel + 1, n =>
    if n < 10 then [Nat.digitChar n]
    else natCharsAux fuel (n / 10) ++ [Nat.digitChar (n % 10)]

/-- Decimal rendering of a natural number, modelling the JavaScript template
literal interpolation of the chunk index (a non-negative integer). -/
def natChars (n : Nat) : Str := natCharsAux (n + 1) n

theorem natCharsAux_eq (n : Nat) : ∀ f : Nat, n < f → natCharsAux f n = natChars n := by
  induction n using Nat.strong_induction_on with
  | _ n ih =>
    intro f hf
    match f, hf with
    | f + 1, _ =>
      show natCharsAux (f + 1) n = natCharsAux (n + 1) n
      unfold natCharsAux
      by_cases h : n < 10
      · simp [h]
      · have h10 : 10 ≤ n := by omega
        simp only [h, if_false]
        rw [ih (n / 10) (by omega) f (by omega), ih (n / 10) (by omega) n (by omega)]

theorem natChars_def (n : Nat) :
    natChars n = if n < 10 then [Nat.digitChar n]
                 else natChars (n / 10) ++ [Nat.digitChar (n % 10)] := by
  show natCharsAux (n + 1) n = _
  unfold natCharsAux
  by_cases h : n < 10
  · simp [h]
  · simp only [h, if_false]
    rw [natCharsAux_eq (n / 10) n (by omega)]

theorem natChars_ne_nil (n : Nat) : natChars n ≠ [] := by
  rw [natChars_def]
  by_cases h : n < 10 <;> simp [h]

theorem digitChar_inj_of_lt (a b : Nat) (ha : a < 10) (hb : b < 10)
    (h : Nat.digitChar a = Nat.digitChar b) : a = b := by
  interval_cases a <;> interval_cases b <;> first | rfl | (exfalso; revert h; decide)

theorem natChars_injective : ∀ m n : Nat, natChars m = natChars n → m = n := by
  intro m
  induction m using Nat.strong_induction_on with
  | _ m ih =>
    intro n h
    rw [natChars_def m, natChars_def n] at h
    by_cases hm : m < 10 <;> by_cases hn : n < 10
    · simp only [hm, hn, if_true] at h
      exact digitChar_inj_of_lt m n hm hn (by simpa using h)
    · exfalso
      simp only [hm, hn, if_true, if_false] at h
      have hlen := congrArg List.length h
      simp only [List.length_append, List.length_cons, List.length_nil] at hlen
      have hpos : 0 < (natChars (n / 10)).length :=
        List.length_pos.mpr (natChars_ne_nil (n / 10))
      omega
    · exfalso
      simp only [hm, hn, if_true, if_false] at h
      have hlen := congrArg List.length h
      simp only [List.length_append, List.length_cons, List.length_nil] at hlen
      have hpos : 0 < (natChars (m / 10)).length :=
        List.length_pos.mpr (natChars_ne_nil (m / 10))
      omega
    · simp only [hm, hn, if_false] at h
      have hrev := congrArg List.reverse h
      simp only [List.reverse_append, List.reverse_cons, List.reverse_nil,
        List.nil_append, List.singleton_append, List.cons.injEq] at hrev
      have hdig : m % 10 = n % 10 :=
        digitChar_inj_of_lt _ _ (Nat.mod_lt m (by omega)) (Nat.mod_lt n (by omega)) hrev.1
      have hdiv : m / 10 = n / 10 := by
        have := congrArg List.reverse hrev.2
        simp only [List.reverse_reverse] at this
        exact ih (m / 10) (by omega) (n / 10) this
      omega

/-- Chunk identifiers as derived in both pipelines: the template literal
joining the document id, an underscore and the decimal chunk index. -/
def chunkId (docId : Str) (i : Nat) : Str := docId ++ '_' :: natChars i

theorem chunkId_injective (docId : Str) : Function.Injective (chunkId docId) := by
  intro i j h
  unfold chunkId at h
  have h2 := List.append_cancel_left h
  exact natChars_injective i j (List.cons.injEq .. ▸ h2 |>.2)

/-- The list of chunk ids of a document with `n` chunks, in index order. -/
def chunkIdList (docId : Str) (n : Nat) : List Str := (List.range n).map (chunkId docId)

theorem chunkIdList_nodup (docId : Str) (n : Nat) : (chunkIdList docId n).Nodup :=
  (List.nodup_range n).map (chunkId_injective docId)

/-- Fuel-driven body of `sliceEvery`; the fuel bounds the number of loop
iterations. -/
def sliceEveryF {α : Type} : Nat → Nat → List α → List (List α)
  | 0, _, _ => []
  | _ + 1, _, [] => []
  | fuel + 1, size, a :: t => (a :: t).take size :: sliceEveryF fuel size ((a :: t).drop size)

/-- The slicing loop shared by both sources:
`for (let i = 0; i < xs.length; i += size) groups.push(xs.slice(i, i + size))`.
It underlies the chunker (size 500 over characters) and the batch embedder
(size 5 in RAGWorkflow, size 20 in AgentWorkflow, over texts). -/
def sliceEvery {α : Type} (size : Nat) (l : List α) : List (List α) :=
  sliceEveryF l.length size l

theorem sliceEveryF_eq {α : Type} (size : Nat) (hs : 0 < size) :
    ∀ (f : Nat) (l : List α), l.length ≤ f → sliceEveryF f size l = sliceEvery size l := by
  intro f
  induction f using Nat.strong_induction_on with
  | _ f ih =>
    intro l hl
    match f, l with
    | 0, l =>
      have : l = [] := List.eq_nil_of_length_eq_zero (by omega)
      subst this
      rfl
    | f + 1, [] => rfl
    | f + 1, a :: t =>
      show _ :: sliceEveryF f size ((a :: t).drop size) = sliceEvery size (a :: t)
      have hdrop : ((a :: t).drop size).length ≤ t.length := by
        rw [List.length_drop]; simp only [List.length_cons]; omega
      have htf : t.length ≤ f := by simp only [List.length_cons] at hl; omega
      have h1 : sliceEveryF f size ((a :: t).drop size) = sliceEvery size ((a :: t).drop size) :=
        ih f (by omega) _ (le_trans hdrop htf)
      have h2 : sliceEveryF t.length size ((a :: t).drop size)
          = sliceEvery size ((a :: t).drop size) :=
        ih t.length (by omega) _ hdrop
      rw [h1]
      show _ = sliceEveryF (a :: t).length size (a :: t)
      simp only [List.length_cons]
      show _ = _ :: sliceEveryF t.length size ((a :: t).drop size)
      rw [h2]

theorem sliceEvery_nil {α : Type} (size : Nat) : sliceEvery size ([] : List α) = [] := rfl

theorem sliceEvery_cons {α : Type} (size : Nat) (hs : 0 < size) (a : α) (t : List α) :
    sliceEvery size (a :: t) = (a :: t).take size :: sliceEvery size ((a :: t).drop size) := by
  show sliceEveryF (a :: t).length size (a :: t) = _
  simp only [List.length_cons]
  show _ :: sliceEveryF t.length size ((a :: t).drop size) = _
  rw [sliceEveryF_eq size hs t.length ((a :: t).drop size)
    (by rw [List.length_drop]; simp only [List.length_cons]; omega)]

theorem flatten_sliceEvery {α : Type} (size : Nat) (hs : 0 < size) (l : List α) :
    (sliceEvery size l).flatten = l := by
  have main : ∀ (n : Nat) (l : List α), l.length ≤ n → (sliceEvery size l).flatten = l := by
    intro n
    induction n with
    | zero =>
      intro l hl
      have : l = [] := List.eq_nil_of_length_eq_zero (by omega)
      subst this; rfl
    | succ n ih =>
      intro l hl
      match l with
      | [] => rfl
      | a :: t =>
        rw [sliceEvery_cons size hs a t, List.flatten_cons,
          ih ((a :: t).drop size) (by rw [List.length_drop]; simp only [List.length_cons] at hl ⊢; omega),
          List.take_append_drop]
  exact main l.length l le_rfl

theorem length_sliceEvery {α : Type} (size : Nat) (hs : 0 < size) (l : List α) :
    (sliceEvery size l).length = (l.length + size - 1) / size := by
  have main : ∀ (n : Nat) (l : List α), l.length ≤ n →
      (sliceEvery size l).length = (l.length + size - 1) / size := by
    intro n
    induction n with
    | zero =>
      intro l hl
      have : l = [] := List.eq_nil_of_length_eq_zero (by omega)
      subst this
      rw [sliceEvery_nil]
      simp only [List.length_nil, Nat.zero_add]
      rw [Nat.div_eq_of_lt (by omega)]
    | succ n ih =>
      intro l hl
      match l with
      | [] =>
        rw [sliceEvery_nil]
        simp only [List.length_nil, Nat.zero_add]
        rw [Nat.div_eq_of_lt (by omega)]
      | a :: t =>
        rw [sliceEvery_cons size hs a t]
        rw [List.length_cons,
          ih ((a :: t).drop size) (by rw [List.length_drop]; simp only [List.length_cons] at hl ⊢; omega)]
        rw [List.length_drop]
        simp only [List.length_cons]
        by_cases hle : t.length + 1 ≤ size
        · have h0 : t.length + 1 - size + size - 1 = size - 1 := by omega
          have h1 : t.length + 1 + size - 1 = t.length + size := by omega
          rw [h0, h1, Nat.add_div_right _ hs,
            Nat.div_eq_of_lt (show size - 1 < size by omega),
            Nat.div_eq_of_lt (show t.length < size by omega)]
        · have h1 : t.length + 1 - size + size - 1 = t.length := by omega
          have h2 : t.length + 1 + size - 1 = t.length + size := by omega
          rw [h1, h2, Nat.add_div_right _ hs]
  exact main l.length l le_rfl

theorem length_le_of_mem_sliceEvery {α : Type} (size : Nat) (hs : 0 < size)
    (l : List α) (b : List α) (hb : b ∈ sliceEvery size l) : b.length ≤ size := by
  have main : ∀ (n : Nat) (l : List α), l.length ≤ n → b ∈ sliceEvery size l → b.length ≤ size := by
    intro n
    induction n with
    | zero =>
      intro l hl hb
      have : l = [] := List.eq_nil_of_length_eq_zero (by omega)
      subst this; simp [sliceEvery_nil] at hb
    | succ n ih =>
      intro l hl hb
      match l with
      | [] => simp [sliceEvery_nil] at hb
      | a :: t =>
        rw [sliceEvery_cons size hs a t, List.mem_cons] at hb
        rcases hb with hb | hb
        · subst hb
          rw [List.length_take]
          omega
        · exact ih ((a :: t).drop size)
            (by rw [List.length_drop]; simp only [List.length_cons] at hl ⊢; omega) hb
  exact main l.length l le_rfl hb

/-- The map-with-index idiom `xs.map((x, i) => f(i, x))` of the sources,
generalized over the starting index to enable induction. -/
def mapIdxFrom {α β : Type} (f : Nat → α → β) : Nat → List α → List β
  | _, [] => []
  | k, a :: t => f k a :: mapIdxFrom f (k + 1) t

theorem length_mapIdxFrom {α β : Type} (f : Nat → α → β) :
    ∀ (k : Nat) (l : List α), (mapIdxFrom f k l).length = l.length := by
  intro k l
  induction l generalizing k with
  | nil => rfl
  | cons a t ih => simp [mapIdxFrom, ih]

theorem map_mapIdxFrom {α β γ : Type} (f : Nat → α → β) (g : β → γ) :
    ∀ (k : Nat) (l : List α), (mapIdxFrom f k l).map g = mapIdxFrom (fun i a => g (f i a)) k l := by
  intro k l
  induction l generalizing k with
  | nil => rfl
  | cons a t ih => simp [mapIdxFrom, ih]

theorem mapIdxFrom_index {α β : Type} (h : Nat → β) :
    ∀ (k : Nat) (l : List α), mapIdxFrom (fun i _ => h i) k l = (List.range' k l.length).map h := by
  intro k l
  induction l generalizing k with
  | nil => rfl
  | cons a t ih => simp [mapIdxFrom, List.range'_succ, ih]

theorem mapIdxFrom_value {α β : Type} (h : α → β) :
    ∀ (k : Nat) (l : List α), mapIdxFrom (fun _ a => h a) k l = l.map h := by
  intro k l
  induction l generalizing k with
  | nil => rfl
  | cons a t ih => simp [mapIdxFrom, ih]

/-- Row of the `documents` relational table
(`id TEXT PRIMARY KEY, source_url TEXT, created_at INTEGER, metadata TEXT`).
The metadata column holds the already-JSON-serialized string. -/
structure DocRow where
  id : Str
  sourceUrl : Option Str
  createdAt : Nat
  metadata : Str
deriving DecidableEq

/-- Row of the `chunks` relational table
(`id TEXT PRIMARY KEY, document_id TEXT, chunk_index INTEGER, content TEXT`). -/
structure ChunkRow where
  id : Str
  documentId : Str
  chunkIndex : Nat
  content : Str
deriving DecidableEq

/-- An entry of the vector index: `upsert({id, values, metadata})`. The vector
itself is an opaque handle; metadata carries the document id and, in
RAGWorkflow only, a source tag. -/
structure VecRow where
  id : Str
  values : Nat
  metaDocId : Str
  metaSource : Option Str
deriving DecidableEq

/-- The shared persistent state: the two relational tables and the vector
index. -/
structure Store where
  documents : List DocRow
  chunks : List ChunkRow
  vectors : List VecRow
deriving DecidableEq

def Store.empty : Store := ⟨[], [], []⟩

/-- Keyed replace-or-append, modelling SQLite INSERT OR REPLACE and Vectorize
upsert: the row with the same key is replaced in place, otherwise the row is
appended. -/
def upsertBy {α : Type} (key : α → Str) (r : α) (l : List α) : List α :=
  if l.any (fun x => decide (key x = key r)) then
    l.map (fun x => if key x = key r then r else x)
  else l ++ [r]

/-- Sequential upsert of a list of rows (a batched INSERT OR REPLACE statement
list, or one Vectorize upsert call). -/
def upsertAllBy {α : Type} (key : α → Str) (rows : List α) (l : List α) : List α :=
  rows.foldl (fun acc r => upsertBy key r acc) l

/-- Plain SQL INSERT into `documents`: fails on a duplicate primary key. -/
def insertDocument (r : DocRow) (st : Store) : Option Store :=
  if st.documents.any (fun d => decide (d.id = r.id)) then none
  else some { st with documents := st.documents ++ [r] }

theorem upsertBy_cons_of_ne {α : Type} (key : α → Str) (s r : α) (st : List α)
    (h : key s ≠ key r) : upsertBy key s (r :: st) = r :: upsertBy key s st := by
  unfold upsertBy
  have hr : decide (key r = key s) = false := by
    simp only [decide_eq_false_iff_not]
    exact fun hh => h hh.symm
  by_cases ha : st.any (fun x => decide (key x = key s))
  · simp only [List.any_cons, hr, Bool.false_or, ha, if_true, List.map_cons]
    rw [if_neg (fun hh => h hh.symm)]
  · simp only [List.any_cons, hr, Bool.false_or, Bool.not_eq_true] at ha ⊢
    simp [ha]

theorem upsertBy_head_self {α : Type} (key : α → Str) (r : α) (st : List α)
    (h : ∀ x ∈ st, key x ≠ key r) : upsertBy key r (r :: st) = r :: st := by
  unfold upsertBy
  simp only [List.any_cons, decide_eq_true_eq]
  rw [if_pos (by simp)]
  simp only [List.map_cons, if_pos rfl]
  congr 1
  conv_rhs => rw [show st = st.map id from (List.map_id st).symm]
  exact List.map_congr_left (fun x hx => by simp [h x hx, id])

theorem upsertAllBy_cons_store {α : Type} (key : α → Str) (rows : List α) (r : α) (st : List α)
    (h : ¬ key r ∈ rows.map key) :
    upsertAllBy key rows (r :: st) = r :: upsertAllBy key rows st := by
  induction rows generalizing st with
  | nil => rfl
  | cons s rs ih =>
    show upsertAllBy key rs (upsertBy key s (r :: st)) = r :: upsertAllBy key rs (upsertBy key s st)
    rw [upsertBy_cons_of_ne key s r st (by
      intro hh
      exact h (by simp only [List.map_cons, List.mem_cons]; exact Or.inl hh.symm))]
    exact ih _ (fun hh => h (by simp only [List.map_cons, List.mem_cons]; exact Or.inr hh))

theorem upsertAllBy_nil_store {α : Type} (key : α → Str) (rows : List α)
    (h : (rows.map key).Nodup) : upsertAllBy key rows [] = rows := by
  induction rows with
  | nil => rfl
  | cons r rs ih =>
    show upsertAllBy key rs (upsertBy key r []) = r :: rs
    have h1 : upsertBy key r [] = [r] := by unfold upsertBy; simp
    rw [h1, upsertAllBy_cons_store key rs r []
      (by simp only [List.map_cons, List.nodup_cons] at h; exact h.1)]
    rw [ih (by simp only [List.map_cons, List.nodup_cons] at h; exact h.2)]

theorem upsertAllBy_take {α : Type} (key : α → Str) (rows : List α)
    (h : (rows.map key).Nodup) (m : Nat) :
    upsertAllBy key rows (rows.take m) = rows := by
  induction rows generalizing m with
  | nil => simp [upsertAllBy]
  | cons r rs ih =>
    match m with
    | 0 => exact upsertAllBy_nil_store key (r :: rs) h
    | m + 1 =>
      show upsertAllBy key rs (upsertBy key r (r :: rs.take m)) = r :: rs
      simp only [List.map_cons, List.nodup_cons] at h
      have hmem : ∀ x ∈ rs.take m, key x ≠ key r := by
        intro x hx hk
        exact h.1 (hk ▸ List.mem_map_of_mem key (List.take_subset m rs hx))
      rw [upsertBy_head_self key r (rs.take m) hmem,
        upsertAllBy_cons_store key rs r (rs.take m) h.1, ih h.2 m]

theorem upsertAllBy_append {α : Type} (key : α → Str) (rows₁ rows₂ : List α) (l : List α) :
    upsertAllBy key (rows₁ ++ rows₂) l = upsertAllBy key rows₂ (upsertAllBy key rows₁ l) :=
  List.foldl_append ..

/-- First-seen deduplication, modelling `Array.from(new Set(xs))`: a JS Set
preserves insertion order and keeps the first occurrence of each element. -/
def dedupFirstSeen (l : List Str) : List Str :=
  l.foldl (fun acc x => if x ∈ acc then acc else acc ++ [x]) []

theorem dedupFirstSeen_aux_nodup (l : List Str) :
    ∀ acc : List Str, acc.Nodup →
      (l.foldl (fun acc x => if x ∈ acc then acc else acc ++ [x]) acc).Nodup := by
  induction l with
  | nil => exact fun acc h => h
  | cons x t ih =>
    intro acc hacc
    show (t.foldl _ (if x ∈ acc then acc else acc ++ [x])).Nodup
    by_cases hx : x ∈ acc
    · simpa [hx] using ih acc hacc
    · simp only [hx, if_false]
      exact ih (acc ++ [x]) (by simp [List.nodup_append, hacc, hx])

theorem dedupFirstSeen_aux_mem (l : List Str) (y : Str) :
    ∀ acc : List Str,
      (y ∈ l.foldl (fun acc x => if x ∈ acc then acc else acc ++ [x]) acc ↔ y ∈ acc ∨ y ∈ l) := by
  induction l with
  | nil => simp
  | cons x t ih =>
    intro acc
    show y ∈ t.foldl _ (if x ∈ acc then acc else acc ++ [x]) ↔ _
    rw [ih]
    by_cases hx : x ∈ acc
    · simp only [hx, if_true, List.mem_cons]
      constructor
      · rintro (h | h)
        · exact Or.inl h
        · exact Or.inr (Or.inr h)
      · rintro (h | h | h)
        · exact Or.inl h
        · exact Or.inl (h ▸ hx)
        · exact Or.inr h
    · simp only [hx, if_false, List.mem_append, List.mem_singleton, List.mem_cons]
      tauto

theorem dedupFirstSeen_nodup (l : List Str) : (dedupFirstSeen l).Nodup :=
  dedupFirstSeen_aux_nodup l [] List.nodup_nil

theorem mem_dedupFirstSeen (l : List Str) (y : Str) : y ∈ dedupFirstSeen l ↔ y ∈ l := by
  unfold dedupFirstSeen
  rw [dedupFirstSeen_aux_mem]
  simp

/-- Descending order on a score projection; this is the order realized by the
JS comparator `(a, b) => b.score - a.score`. -/
def byScoreDesc {α : Type} (score : α → Int) : α → α → Prop :=
  fun a b => score b ≤ score a

instance {α : Type} (score : α → Int) : DecidableRel (byScoreDesc score) :=
  fun a b => inferInstanceAs (Decidable (score b ≤ score a))

instance {α : Type} (score : α → Int) : IsTotal α (byScoreDesc score) :=
  ⟨fun a b => le_total (score b) (score a)⟩

instance {α : Type} (score : α → Int) : IsTrans α (byScoreDesc score) :=
  ⟨fun _ _ _ hab hbc => le_trans hbc hab⟩

/-- The stable descending sort `.sort((a, b) => b.score - a.score)` of the
sources. ECMAScript guarantees a stable sort consistent with the comparator;
insertion sort realizes exactly that specification. -/
def rankDesc {α : Type} (score : α → Int) (l : List α) : List α :=
  List.insertionSort (byScoreDesc score) l

theorem rankDesc_sorted {α : Type} (score : α → Int) (l : List α) :
    List.Sorted (byScoreDesc score) (rankDesc score l) :=
  List.sorted_insertionSort (byScoreDesc score) l

theorem rankDesc_perm {α : Type} (score : α → Int) (l : List α) :
    (rankDesc score l).Perm l :=
  List.perm_insertionSort (byScoreDesc score) l

/-- In-memory chunk record produced by the chunking steps of both pipelines
(interface DocumentChunk of types.ts): `{id, docId, content, index}`. -/
structure DocumentChunk where
  id : Str
  docId : Str
  content : Str
  index : Nat
deriving DecidableEq

/-- The `.map((c, i) => ({id: docId_i, docId, content, index: i}))` applied by
both chunking steps to the raw text pieces. -/
def mkChunks (docId : Str) (raw : List Str) : List DocumentChunk :=
  mapIdxFrom (fun i t => { id := chunkId docId i, docId := docId, content := t, index := i }) 0 raw

theorem mkChunks_map_id (docId : Str) (raw : List Str) :
    (mkChunks docId raw).map (fun c => c.id) = chunkIdList docId raw.length := by
  unfold mkChunks chunkIdList
  rw [map_mapIdxFrom]
  show mapIdxFrom (fun i _ => chunkId docId i) 0 raw = _
  rw [mapIdxFrom_index, List.range_eq_range']

theorem mkChunks_map_content (docId : Str) (raw : List Str) :
    (mkChunks docId raw).map (fun c => c.content) = raw := by
  unfold mkChunks
  rw [map_mapIdxFrom]
  have h := mapIdxFrom_value (fun t : Str => t) 0 raw
  simpa using h

theorem mkChunks_map_index (docId : Str) (raw : List Str) :
    (mkChunks docId raw).map (fun c => c.index) = List.range raw.length := by
  unfold mkChunks
  rw [map_mapIdxFrom]
  show mapIdxFrom (fun i _ => i) 0 raw = _
  rw [mapIdxFrom_index, List.range_eq_range']
  simp

theorem mkChunks_length (docId : Str) (raw : List Str) :
    (mkChunks docId raw).length = raw.length :=
  length_mapIdxFrom _ 0 raw

/-- The chunk row written for a chunk record
(`INSERT OR REPLACE INTO chunks (id, document_id, chunk_index, content)`). -/
def chunkRowOf (c : DocumentChunk) : ChunkRow :=
  { id := c.id, documentId := c.docId, chunkIndex := c.index, content := c.content }

theorem chunkRowOf_id (c : DocumentChunk) : (chunkRowOf c).id = c.id := rfl

/-- The vector upserted for a chunk by AgentWorkflow:
`{id: c.id, values: embeddings.data[idx], metadata: {docId: c.docId}}`. -/
def vecRowOf001 (embed : Str → Nat) (c : DocumentChunk) : VecRow :=
  { id := c.id, values := embed c.content, metaDocId := c.docId, metaSource := none }

/-- JavaScript `a || b` on an optional string: null, undefined and the empty
string are falsy. -/
def jsOr (o : Option Str) (d : Str) : Str :=
  match o with
  | none => d
  | some s => if s = [] then d else s

/-- JavaScript `x || null` on a nullable string, used when binding the
document row's source_url column: the empty string is falsy and is stored as
null. -/
def jsOrNull (o : Option Str) : Option Str :=
  match o with
  | none => none
  | some s => if s = [] then none else some s

/-- The vector upserted for a chunk by RAGWorkflow:
`{id, values, metadata: {docId, source: params.sourceUrl || "raw"}}`. -/
def vecRowOfIdx (embed : Str → Nat) (srcUrl : Option Str) (c : DocumentChunk) : VecRow :=
  { id := c.id, values := embed c.content, metaDocId := c.docId,
    metaSource := some (jsOr srcUrl (("raw").data)) }

/-- Chunker configuration of the AgentWorkflow chunk-content step. The shipped
source instantiates it with chunkSize 500 and chunkOverlap 50. -/
structure SplitCfg where
  chunkSize : Nat
  chunkOverlap : Nat
deriving DecidableEq

/-- Modelled from the spec: the configuration validation of the text-splitter
construction. The splitter implementation (RecursiveCharacterTextSplitter of
the langchain library) is not part of this repository; the spec requires that
"overlap must never exceed chunk size (reject configuration that violates
this)", so a configuration is accepted exactly when the overlap does not
exceed the chunk size. -/
def splitCfgOk (cfg : SplitCfg) : Bool := decide (cfg.chunkOverlap ≤ cfg.chunkSize)

/-- Pipeline-level failures: a rejected chunker configuration, or a relational
constraint violation. -/
inductive PipeErr
  | configError
  | dbError
deriving DecidableEq

/-- Ingestion request payload of AgentWorkflow:
`{content, sourceUrl?, metadata?}`; the metadata field is modelled by its
JSON-serialized string. -/
structure IngestParams where
  content : Str
  sourceUrl : Option Str
  metadata : Str
deriving DecidableEq

/-- Memoization cache of the durable substrate for one AgentWorkflow ingestion
instance, one slot per named step. -/
structure Cache001 where
  initDocument : Option Str
  chunkContent : Option (List DocumentChunk)
  embedAndStore : Option Nat
deriving DecidableEq

def Cache001.empty : Cache001 := ⟨none, none, none⟩

/-- Step "init-document" of AgentWorkflow: generate the document id from the
id supply (nanoid) and INSERT the document row; on replay the memoized id is
returned and no effect happens. `ctr` indexes the id supply `fresh`. -/
def stepInitDocument (fresh : Nat → Str) (now : Nat) (p : IngestParams)
    (c : Cache001) (ctr : Nat) (st : Store) : Except PipeErr (Str × Cache001 × Nat × Store) :=
  match c.initDocument with
  | some docId => .ok (docId, c, ctr, st)
  | none =>
    let docId := fresh ctr
    let row : DocRow :=
      { id := docId, sourceUrl := jsOrNull p.sourceUrl, createdAt := now,
        metadata := p.metadata }
    match insertDocument row st with
    | none => .error .dbError
    | some st' => .ok (docId, { c with initDocument := some docId }, ctr + 1, st')

/-- Step "chunk-content" of AgentWorkflow: construct the splitter (validating
the configuration), split the content and attach deterministic ids. The
splitter body is external to the repository and is passed as the oracle
`split`. -/
def stepChunkContent (split : SplitCfg → Str → List Str) (cfg : SplitCfg) (p : IngestParams)
    (docId : Str) (c : Cache001) : Except PipeErr (List DocumentChunk × Cache001) :=
  match c.chunkContent with
  | some chs => .ok (chs, c)
  | none =>
    if splitCfgOk cfg then
      let chs := mkChunks docId (split cfg p.content)
      .ok (chs, { c with chunkContent := some chs })
    else .error .configError

/-- One iteration of the embed-and-store loop of AgentWorkflow: embed the
batch, write its chunk rows (INSERT OR REPLACE) and upsert its vectors. -/
def persistBatch001 (embed : Str → Nat) (b : List DocumentChunk) (st : Store) : Store :=
  { st with
    chunks := upsertAllBy (fun r => r.id) (b.map chunkRowOf) st.chunks,
    vectors := upsertAllBy (fun v => v.id) (b.map (vecRowOf001 embed)) st.vectors }

/-- Step "embed-and-store" of AgentWorkflow: process the chunks in batches of
MAX_BATCH_SIZE = 20, embedding and persisting each batch. -/
def stepEmbedAndStore (embed : Str → Nat) (chs : List DocumentChunk)
    (c : Cache001) (st : Store) : Nat × Cache001 × Store :=
  match c.embedAndStore with
  | some n => (n, c, st)
  | none =>
    ( chs.length, { c with embedAndStore := some chs.length },
      (sliceEvery 20 chs).foldl (fun s b => persistBatch001 embed b s) st )

/-- Result value of an ingestion run; AgentWorkflow reports status "ingested",
RAGWorkflow status "success"; `chunks` is the reported chunk count. -/
structure IngestOut where
  status : Str
  docId : Str
  chunks : Nat
deriving DecidableEq

/-- The AgentWorkflow ingestion pipeline `runIngestionPipeline`: the three
steps in order, threading cache, id supply counter and store. A step failure
aborts the run but keeps the effects already performed. -/
def runIngest001 (fresh : Nat → Str) (now : Nat) (split : SplitCfg → Str → List Str)
    (embed : Str → Nat) (cfg : SplitCfg) (p : IngestParams)
    (c₀ : Cache001) (ctr₀ : Nat) (st₀ : Store) :
    Except PipeErr IngestOut × Cache001 × Nat × Store :=
  match stepInitDocument fresh now p c₀ ctr₀ st₀ with
  | .error e => (.error e, c₀, ctr₀, st₀)
  | .ok (docId, c₁, ctr₁, st₁) =>
    match stepChunkContent split cfg p docId c₁ with
    | .error e => (.error e, c₁, ctr₁, st₁)
    | .ok (chs, c₂) =>
      match stepEmbedAndStore embed chs c₂ st₁ with
      | (n, c₃, st₂) =>
        (.ok { status := ("ingested").data, docId := docId, chunks := n }, c₃, ctr₁, st₂)

/-- The cache, id-supply counter and store of an AgentWorkflow ingestion
instance that started from an empty store, completed (and memoized) the
init-document and chunk-content steps, and then crashed inside the
embed-and-store step with the first `m` chunk rows and the first `q` vectors
persisted (the step result is not memoized). -/
def crashedState001 (fresh : Nat → Str) (now : Nat) (split : SplitCfg → Str → List Str)
    (embed : Str → Nat) (cfg : SplitCfg) (p : IngestParams) (m q : Nat) :
    Cache001 × Nat × Store :=
  let docId := fresh 0
  let chs := mkChunks docId (split cfg p.content)
  let docRow : DocRow := ⟨docId, jsOrNull p.sourceUrl, now, p.metadata⟩
  ( ⟨some docId, some chs, none⟩,
    1,
    ⟨[docRow],
     upsertAllBy (fun r => r.id) ((chs.map chunkRowOf).take m) [],
     upsertAllBy (fun v => v.id) ((chs.map (vecRowOf001 embed)).take q) []⟩ )

/-- Sanity of `crashedState001`: its cache, counter and document row are
exactly what running the first two pipeline steps from an empty store and
cache produces. -/
theorem crashedState001_consistent (fresh : Nat → Str) (now : Nat)
    (split : SplitCfg → Str → List Str) (embed : Str → Nat) (cfg : SplitCfg)
    (p : IngestParams) (m q : Nat) (hcfg : splitCfgOk cfg = true) :
    stepInitDocument fresh now p Cache001.empty 0 Store.empty =
      .ok (fresh 0, ⟨some (fresh 0), none, none⟩, 1,
        ⟨(crashedState001 fresh now split embed cfg p m q).2.2.documents, [], []⟩) ∧
    stepChunkContent split cfg p (fresh 0) ⟨some (fresh 0), none, none⟩ =
      .ok (mkChunks (fresh 0) (split cfg p.content),
        (crashedState001 fresh now split embed cfg p m q).1) := by
  constructor
  · unfold stepInitDocument insertDocument
    simp [Store.empty, Cache001.empty, crashedState001]
  · unfold stepChunkContent
    rw [if_pos hcfg]
    rfl

/-- The batched embedding computation shared by the embed steps: slice the
texts into consecutive groups of at most `B`, make one embedding-service call
per group (`embed` applied to each text of the group, results returned in
group order), and concatenate the per-group results in order. -/
def batchEmbed (embed : Str → Nat) (B : Nat) (texts : List Str) : List Nat :=
  ((sliceEvery B texts).map (fun b => b.map embed)).flatten

/-- Memoization cache for one RAGWorkflow ingestion instance. -/
structure CacheIdx where
  chunkDocument : Option (List DocumentChunk)
  embedChunks : Option (List VecRow)
  persistData : Option Unit
deriving DecidableEq

def CacheIdx.empty : CacheIdx := ⟨none, none, none⟩

/-- RAGWorkflow document id resolution `params.id || nanoid()`: performed
outside any step, so it re-executes on every replay; a missing or empty
caller id consumes a fresh id from the supply. -/
def resolveDocId (fresh : Nat → Str) (ctr : Nat) (pid : Option Str) : Str × Nat :=
  match pid with
  | some s => if s = [] then (fresh ctr, ctr + 1) else (s, ctr)
  | none => (fresh ctr, ctr + 1)

/-- Step "chunk-document" of RAGWorkflow: slice the content into consecutive
pieces of CHUNK_SIZE = 500 characters and attach ids `docId_i`. -/
def stepChunkDocument (docId : Str) (content : Str) (c : CacheIdx) :
    List DocumentChunk × CacheIdx :=
  match c.chunkDocument with
  | some chs => (chs, c)
  | none =>
    let chs := mkChunks docId (sliceEvery 500 content)
    (chs, { c with chunkDocument := some chs })

/-- Step "embed-chunks" of RAGWorkflow: embed the chunk contents in batches of
BATCH_SIZE = 5 and map the vectors back to the chunk ids, in order. -/
def stepEmbedChunks (embed : Str → Nat) (srcUrl : Option Str)
    (chs : List DocumentChunk) (c : CacheIdx) : List VecRow × CacheIdx :=
  match c.embedChunks with
  | some vs => (vs, c)
  | none =>
    let vs := ((sliceEvery 5 chs).map (fun b => b.map (vecRowOfIdx embed srcUrl))).flatten
    (vs, { c with embedChunks := some vs })

/-- Step "persist-data" of RAGWorkflow: INSERT OR REPLACE the document row and
all chunk rows in one relational batch, then upsert all vectors. -/
def stepPersistData (now : Nat) (docId : Str) (srcUrl : Option Str) (metadata : Str)
    (chs : List DocumentChunk) (vs : List VecRow) (c : CacheIdx) (st : Store) :
    CacheIdx × Store :=
  match c.persistData with
  | some _ => (c, st)
  | none =>
    let docRow : DocRow := ⟨docId, jsOrNull srcUrl, now, metadata⟩
    ( { c with persistData := some () },
      ⟨upsertBy (fun d => d.id) docRow st.documents,
       upsertAllBy (fun r => r.id) (chs.map chunkRowOf) st.chunks,
       upsertAllBy (fun v => v.id) vs st.vectors⟩ )

/-- The RAGWorkflow ingestion pipeline `handleIngestion`: id resolution
outside the steps, then the three steps in order. -/
def runIngestIdx (fresh : Nat → Str) (embed : Str → Nat) (now : Nat)
    (pid : Option Str) (content : Str) (srcUrl : Option Str) (metadata : Str)
    (c₀ : CacheIdx) (ctr₀ : Nat) (st₀ : Store) : IngestOut × CacheIdx × Nat × Store :=
  let d := resolveDocId fresh ctr₀ pid
  let step1 := stepChunkDocument d.1 content c₀
  let step2 := stepEmbedChunks embed srcUrl step1.1 step1.2
  let step3 := stepPersistData now d.1 srcUrl metadata step1.1 step2.1 step2.2 st₀
  (⟨("success").data, d.1, step1.1.length⟩, step3.1, d.2, step3.2)

/-- Search result shape of the agent pipeline (interface SearchResult of
types.ts): `{id, content, score, sourceUrl}` with a nullable source URL. -/
structure SearchResult where
  id : Str
  content : Str
  sourceUrl : Option Str
  score : Int
deriving DecidableEq

/-- Score attachment `allMatches.find(m => m.id === row.id)?.score || 0`: the
score of the first match with the row's id, and 0 when no match is found (a
found score of 0 is also falsy, which coincides with the default). -/
def scoreFor (ms : List (Str × Int)) (i : Str) : Int :=
  match ms.find? (fun m => decide (m.1 = i)) with
  | some m => m.2
  | none => 0

/-- Hydration of one chunk row in the agent-gather step: the row's id and
content, the owning document's source_url obtained by LEFT JOIN on
document_id (null when the document row is absent), and the attached score. -/
def hydrate001 (ms : List (Str × Int)) (docs : List DocRow) (r : ChunkRow) :
    SearchResult :=
  { id := r.id, content := r.content,
    sourceUrl := (docs.find? (fun d => decide (d.id = r.documentId))).bind (fun d => d.sourceUrl),
    score := scoreFor ms r.id }

/-- Steps 2c-2d of the agent-gather step: deduplicate the unioned matches by
chunk id (first seen, JS Set order), return [] when nothing matched, hydrate
the surviving ids from the store (`SELECT ... WHERE c.id IN (...)`, rows in
table order), attach scores and sort by descending score (stable). -/
def gatherRank (ms : List (Str × Int)) (tbl : List ChunkRow) (docs : List DocRow) :
    List SearchResult :=
  let uniqueIds := dedupFirstSeen (ms.map (fun m => m.1))
  if uniqueIds = [] then []
  else
    rankDesc (fun r => r.score)
      ((tbl.filter (fun r => decide (r.id ∈ uniqueIds))).map (hydrate001 ms docs))

/-- JS truthiness of a nullable string. -/
def jsTruthy (o : Option Str) : Bool :=
  match o with
  | none => false
  | some s => !(s.isEmpty)

/-- The reported sources `searchResults.map(s => s.sourceUrl).filter(Boolean)`
of the agent pipeline: JS Boolean filtering keeps truthy values only, dropping
null and the empty string; no deduplication is applied. -/
def reportSources (rs : List SearchResult) : List Str :=
  ((rs.map (fun r => r.sourceUrl)).filter jsTruthy).reduceOption

/-- Reference formulation used to compare against the spec sentence: the
order-preserving list of non-null, non-empty source URLs of the ranked
results, duplicates retained. -/
def truthySourceUrls (rs : List SearchResult) : List Str :=
  rs.filterMap (fun r =>
    match r.sourceUrl with
    | none => none
    | some u => if u = [] then none else some u)

/-- The planner's answer as the TypeScript code sees it after `JSON.parse`:
an object whose expected fields may be absent (the code performs no shape
validation). -/
structure AgentPlanJs where
  subQueries : Option (List Str)
  thoughtProcess : Option Str
deriving DecidableEq

/-- Outcome of `JSON.parse` on the planning response: either the parse throws
(not syntactically valid JSON) or it yields a value, here recorded by the
fields the code subsequently reads. -/
inductive PlanParse
  | throws
  | parsed (p : AgentPlanJs)
deriving DecidableEq

/-- The catch-branch plan
`{subQueries: [params.query], thoughtProcess: "Fallback to direct query."}`. -/
def fallbackPlan (q : Str) : AgentPlanJs :=
  ⟨some [q], some (("Fallback to direct query.").data)⟩

/-- The agent-plan step's try/catch: the parsed value when `JSON.parse`
succeeds, the fallback plan when it throws. -/
def planOf (pr : PlanParse) (q : Str) : AgentPlanJs :=
  match pr with
  | .throws => fallbackPlan q
  | .parsed p => p

/-- External collaborators of the agent pipeline: the outcome of parsing the
planning response, the embedding service, the vector index (top-3 query per
vector) and the generation service (system prompt, user prompt). -/
structure AgentOracle where
  planParse : PlanParse
  embed : Str → Nat
  vecQuery : Nat → List (Str × Int)
  generate : Str → Str → Str

/-- Join a list of strings with a separator, modelling `Array.join`. -/
def joinSep (sep : Str) : List Str → Str
  | [] => []
  | [x] => x
  | x :: y :: t => x ++ sep ++ joinSep sep (y :: t)

/-- One context entry of the agent-synthesize step:
the template literal labelling a result with its source and id. -/
def contextEntry001 (r : SearchResult) : Str :=
  ("[Source: ").data ++ jsOr r.sourceUrl (("Internal").data) ++ (" (ID: ").data ++
    r.id ++ (")]").data ++ '\n' :: r.content

/-- JS template interpolation of a possibly-undefined string. -/
def jsShow (o : Option Str) : Str :=
  match o with
  | none => ("undefined").data
  | some s => s

/-- System prompt of the agent-synthesize step (includes the plan rationale). -/
def synthSystem001 (plan : AgentPlanJs) : Str :=
  ("You are a precise technical writer. Plan used: ").data ++ jsShow plan.thoughtProcess

/-- User prompt of the agent-synthesize step: context block plus question. -/
def synthUser001 (rs : List SearchResult) (q : Str) : Str :=
  ("Context:").data ++ '\n' :: joinSep ('\n' :: '\n' :: []) (rs.map contextEntry001) ++
    ('\n' :: '\n' :: []) ++ ("User Question: ").data ++ q

/-- The fixed no-information answer of the agent-synthesize step. -/
def noInfoAnswer : Str :=
  ("I could not find any relevant information in the knowledge base to answer your query.").data

/-- Result of the agent pipeline `{plan, sources, answer}`. -/
structure ResearchOut where
  plan : AgentPlanJs
  sources : List Str
  answer : Str
deriving DecidableEq

/-- The AgentWorkflow research pipeline `runAgentPipeline`:
plan (one generation-service call, fallible parse), gather (batched embedding
of the sub-queries, one top-3 vector query per sub-query, union, deduplicate,
hydrate, re-rank), synthesize (the fixed answer with no generation call when
the ranked set is empty, otherwise a second generation call). The first
component counts generation-service invocations; the second is `none` when a
step fails at runtime (reading `subQueries` of a malformed plan). -/
def runAgent001 (o : AgentOracle) (tbl : List ChunkRow) (docs : List DocRow) (q : Str) :
    Nat × Option ResearchOut :=
  let plan := planOf o.planParse q
  match plan.subQueries with
  | none => (1, none)
  | some sqs =>
    let vecs := sqs.map o.embed
    let allMatches := (vecs.map o.vecQuery).flatten
    let results := gatherRank allMatches tbl docs
    if results = [] then
      (1, some ⟨plan, reportSources results, noInfoAnswer⟩)
    else
      (2, some ⟨plan, reportSources results,
        o.generate (synthSystem001 plan) (synthUser001 results q)⟩)

/-- Hydrated context row of the RAGWorkflow query pipeline:
`{id, content, document_id}` plus the attached score. -/
structure CtxRow where
  id : Str
  content : Str
  documentId : Str
  score : Int
deriving DecidableEq

/-- Step "fetch-context" of RAGWorkflow: hydrate the matched chunk ids from
the chunks table (`SELECT id, content, document_id WHERE id IN (...)`, rows in
table order), attach scores (`find ... ?.score || 0`) and sort by descending
score. No deduplication is applied to the id list. -/
def fetchContextIdx (ms : List (Str × Int)) (tbl : List ChunkRow) : List CtxRow :=
  let ids := ms.map (fun m => m.1)
  rankDesc (fun r : CtxRow => r.score)
    ((tbl.filter (fun r => decide (r.id ∈ ids))).map
      (fun r => ⟨r.id, r.content, r.documentId, scoreFor ms r.id⟩))

/-- The fixed no-information answer of RAGWorkflow `handleQuery`. -/
def noInfoAnswerIdx : Str :=
  ("I couldn").data ++ '\'' :: ("t find any relevant information in the knowledge base.").data

/-- Result of the RAGWorkflow query pipeline: the answer and the reported
sources, which here are `{id, score}` pairs of the hydrated context. -/
structure QueryOut where
  answer : Str
  sources : List (Str × Int)
deriving DecidableEq

/-- JS `params.topK || 5` (0 is falsy). -/
def jsOrNat (o : Option Nat) (d : Nat) : Nat :=
  match o with
  | none => d
  | some n => if n = 0 then d else n

/-- Context block and user prompt of the generate-answer step of RAGWorkflow. -/
def ctxPromptIdx (ctx : List CtxRow) (q : Str) : Str :=
  ("Context:").data ++ '\n' ::
    joinSep ('\n' :: '\n' :: [])
      (ctx.map (fun c => ("[Source ID: ").data ++ c.id ++ (("]").data ++ '\n' :: c.content))) ++
    ('\n' :: '\n' :: []) ++ ("Question: ").data ++ q

/-- The RAGWorkflow query pipeline `handleQuery`: embed the query, search the
index with topK `params.topK || 5`, short-circuit on zero matches (no
generation call), otherwise hydrate and make one generation call. The first
component counts generation-service invocations. -/
def runQueryIdx (embed : Str → Nat) (vq : Nat → Nat → List (Str × Int)) (gen : Str → Str)
    (tbl : List ChunkRow) (q : Str) (topK : Option Nat) : Nat × QueryOut :=
  let ms := vq (jsOrNat topK 5) (embed q)
  if ms = [] then
    (0, ⟨noInfoAnswerIdx, []⟩)
  else
    let ctx := fetchContextIdx ms tbl
    (1, ⟨gen (ctxPromptIdx ctx q), ctx.map (fun c => (c.id, c.score))⟩)

theorem hydrate001_id (ms : List (Str × Int)) (docs : List DocRow) (r : ChunkRow) :
    (hydrate001 ms docs r).id = r.id := rfl

theorem gatherRank_perm (ms : List (Str × Int)) (tbl : List ChunkRow) (docs : List DocRow) :
    (gatherRank ms tbl docs).Perm
      ((tbl.filter (fun r =>
        decide (r.id ∈ dedupFirstSeen (ms.map (fun m => m.1))))).map (hydrate001 ms docs)) := by
  unfold gatherRank
  by_cases h : dedupFirstSeen (ms.map (fun m => m.1)) = []
  · simp only [h, if_true]
    have hf : tbl.filter (fun r => decide (r.id ∈ ([] : List Str))) = [] := by
      simp
    rw [hf]
    exact List.Perm.nil
  · simp only [h, if_false]
    exact rankDesc_perm _ _

theorem mem_gatherRank (ms : List (Str × Int)) (tbl : List ChunkRow) (docs : List DocRow)
    (r : SearchResult) :
    r ∈ gatherRank ms tbl docs ↔
      ∃ row, row ∈ tbl ∧ row.id ∈ ms.map (fun m => m.1) ∧ hydrate001 ms docs row = r := by
  rw [(gatherRank_perm ms tbl docs).mem_iff, List.mem_map]
  constructor
  · rintro ⟨row, hrow, heq⟩
    rw [List.mem_filter] at hrow
    refine ⟨row, hrow.1, ?_, heq⟩
    have := of_decide_eq_true hrow.2
    rwa [mem_dedupFirstSeen] at this
  · rintro ⟨row, hrow, hid, heq⟩
    refine ⟨row, ?_, heq⟩
    rw [List.mem_filter]
    exact ⟨hrow, decide_eq_true ((mem_dedupFirstSeen _ _).mpr hid)⟩

theorem gatherRank_ids_nodup (ms : List (Str × Int)) (tbl : List ChunkRow) (docs : List DocRow)
    (h : (tbl.map (fun r => r.id)).Nodup) :
    ((gatherRank ms tbl docs).map (fun r => r.id)).Nodup := by
  have hperm := (gatherRank_perm ms tbl docs).map (fun r => r.id)
  rw [List.Perm.nodup_iff hperm]
  rw [List.map_map]
  have hsub : ((tbl.filter (fun r =>
      decide (r.id ∈ dedupFirstSeen (ms.map (fun m => m.1))))).map
        ((fun r => r.id) ∘ hydrate001 ms docs)).Sublist (tbl.map (fun r => r.id)) := by
    have : ((fun r : SearchResult => r.id) ∘ hydrate001 ms docs) = fun row : ChunkRow => row.id := by
      funext row
      rfl
    rw [this]
    exact (List.filter_sublist tbl).map _
  exact h.sublist hsub

theorem gatherRank_sorted (ms : List (Str × Int)) (tbl : List ChunkRow) (docs : List DocRow) :
    List.Sorted (byScoreDesc (fun r : SearchResult => r.score)) (gatherRank ms tbl docs) := by
  unfold gatherRank
  by_cases h : dedupFirstSeen (ms.map (fun m => m.1)) = []
  · simp only [h, if_true]
    exact List.sorted_nil
  · simp only [h, if_false]
    exact rankDesc_sorted _ _

/-- Property asserted by claim C2 as amended: the gathered, deduplicated,
re-ranked result set has pairwise-distinct chunk ids, is sorted by
(non-strictly) descending score, and contains exactly the chunk ids that are
both matched by the vector index and present in the chunks table. -/
def C2Spec (ms : List (Str × Int)) (tbl : List ChunkRow) (docs : List DocRow) : Prop :=
  ((gatherRank ms tbl docs).map (fun r => r.id)).Nodup ∧
  List.Sorted (byScoreDesc (fun r : SearchResult => r.score)) (gatherRank ms tbl docs) ∧
  (∀ i : Str, i ∈ (gatherRank ms tbl docs).map (fun r => r.id) ↔
    i ∈ ms.map (fun m => m.1) ∧ i ∈ tbl.map (fun r => r.id))

/-- C2 (amended). The deduplicator/ranker of the agent-gather step, for every
multiset of (chunkId, score) matches and every chunks table with
pairwise-distinct primary keys: each distinct stored, matched chunk id occurs
exactly once in the output, and the output is sorted by descending score.
The original claim's tie-breaking by ascending chunk id and invariance under
permutation of the input do not hold (see the counterexample): the attached
score is the first-seen one and the sort is merely stable. -/
theorem c2_dedup_rank (ms : List (Str × Int)) (tbl : List ChunkRow) (docs : List DocRow)
    (h : (tbl.map (fun r => r.id)).Nodup) : C2Spec ms tbl docs := by
  refine ⟨gatherRank_ids_nodup ms tbl docs h, gatherRank_sorted ms tbl docs, ?_⟩
  intro i
  constructor
  · intro hi
    rw [List.mem_map] at hi
    obtain ⟨r, hr, hid⟩ := hi
    rw [mem_gatherRank] at hr
    obtain ⟨row, hrow, hmid, heq⟩ := hr
    have : row.id = i := by rw [← hid, ← heq]; rfl
    exact ⟨this ▸ hmid, this ▸ List.mem_map_of_mem (fun r => r.id) hrow⟩
  · rintro ⟨hms, htbl⟩
    rw [List.mem_map] at htbl
    obtain ⟨row, hrow, hid⟩ := htbl
    rw [List.mem_map]
    exact ⟨hydrate001 ms docs row,
      (mem_gatherRank ms tbl docs _).mpr ⟨row, hrow, hid ▸ hms, rfl⟩, hid⟩

/-- Witness for `c2_dedup_rank` at a concrete table with distinct primary
keys. -/
theorem c2_dedup_rank_witness :
    ((([⟨("a").data, ("d").data, 0, ("x").data⟩] : List ChunkRow)).map (fun r => r.id)).Nodup ∧
    C2Spec [(("a").data, 1)] [⟨("a").data, ("d").data, 0, ("x").data⟩] [] :=
  ⟨by decide, c2_dedup_rank _ _ _ (by decide)⟩

/-- C2, original form, refuted: the output is not invariant under permutation
of the input matches. The two match lists below are permutations of each
other (same multiset), but the first-seen score attachment makes the outputs
differ. -/
theorem c2_counterexample :
    ([((("a").data : Str), (1 : Int)), (("a").data, 2)]).Perm
      [((("a").data : Str), (2 : Int)), (("a").data, 1)] ∧
    gatherRank [(("a").data, 1), (("a").data, 2)]
        [⟨("a").data, ("d").data, 0, ("x").data⟩] [] ≠
      gatherRank [(("a").data, 2), (("a").data, 1)]
        [⟨("a").data, ("d").data, 0, ("x").data⟩] [] := by
  constructor
  · exact List.Perm.swap _ _ _
  · decide

/-- Property asserted by claim C3: the batch embedder slices the input into
`ceil(L/B)` consecutive groups (one embedding-service invocation each) of at
most `B` texts whose concatenation is the input, and returns the vectors in
original input order (the vector at position i is the service's vector for
text i). -/
def C3Spec (embed : Str → Nat) (B : Nat) (texts : List Str) : Prop :=
  (sliceEvery B texts).length = (texts.length + B - 1) / B ∧
  (∀ b ∈ sliceEvery B texts, b.length ≤ B) ∧
  (sliceEvery B texts).flatten = texts ∧
  batchEmbed embed B texts = texts.map embed

/-- C3 (confirmed). For every text list and positive batch ceiling, the
batching loop used by both embed steps makes exactly `ceil(L/B)` service
invocations on consecutive groups of at most B texts and preserves input
order in the returned vectors. -/
theorem c3_batching (embed : Str → Nat) (B : Nat) (texts : List Str) (hB : 0 < B) :
    C3Spec embed B texts := by
  refine ⟨length_sliceEvery B hB texts, ?_, flatten_sliceEvery B hB texts, ?_⟩
  · exact fun b hb => length_le_of_mem_sliceEvery B hB texts b hb
  · unfold batchEmbed
    have h1 : ((sliceEvery B texts).map (fun b => b.map embed)).flatten
        = (sliceEvery B texts).flatten.map embed := by simp
    rw [h1, flatten_sliceEvery B hB texts]

/-- Witness for `c3_batching` at the RAGWorkflow batch size 5 with seven
texts: ceil(7/5) = 2 invocations. -/
theorem c3_batching_witness :
    0 < 5 ∧ C3Spec (fun t => t.length) 5
      [("a").data, ("b").data, ("c").data, ("d").data, ("e").data, ("f").data, ("gh").data] :=
  ⟨by decide, c3_batching _ 5 _ (by decide)⟩

/-- C8 (confirmed). The RAGWorkflow chunker slices the document text into
consecutive pieces of 500 characters with zero overlap, so concatenating the
chunk contents in ascending index order (there is no overlap to remove)
reconstructs the source text exactly; the conjuncts tie the statement to the
chunk-document pipeline step. -/
theorem c8_chunk_roundtrip (docId : Str) (content : Str) :
    (stepChunkDocument docId content CacheIdx.empty).1
      = mkChunks docId (sliceEvery 500 content) ∧
    ((mkChunks docId (sliceEvery 500 content)).map (fun c => c.content)).flatten = content ∧
    (mkChunks docId (sliceEvery 500 content)).map (fun c => c.index)
      = List.range (sliceEvery 500 content).length := by
  refine ⟨rfl, ?_, mkChunks_map_index docId _⟩
  rw [mkChunks_map_content]
  exact flatten_sliceEvery 500 (by omega) content

/-- Property asserted by claim C10: every gathered result is hydrated from an
actually stored chunk row (matches without a stored row are dropped by the
SELECT), and the score-attachment expression yields 0 for a row whose id is
not among the vector matches. -/
def C10Spec (ms : List (Str × Int)) (tbl : List ChunkRow) (docs : List DocRow) : Prop :=
  (∀ r ∈ gatherRank ms tbl docs,
    ∃ row, row ∈ tbl ∧ row.id = r.id ∧ row.content = r.content ∧
      hydrate001 ms docs row = r) ∧
  (∀ i : Str, i ∈ ms.map (fun m => m.1) → ¬ i ∈ tbl.map (fun r => r.id) →
    ¬ i ∈ (gatherRank ms tbl docs).map (fun r => r.id)) ∧
  (∀ row : ChunkRow, ¬ row.id ∈ ms.map (fun m => m.1) →
    (hydrate001 ms docs row).score = 0)

/-- C10 (confirmed). In the agent-gather step, results correspond to stored
chunk rows; a matched id with no stored row is silently absent from the
hydrated output; the hydration mapping assigns score 0 to a row not found
among the matches. -/
theorem c10_hydration (ms : List (Str × Int)) (tbl : List ChunkRow) (docs : List DocRow) :
    C10Spec ms tbl docs := by
  refine ⟨?_, ?_, ?_⟩
  · intro r hr
    rw [mem_gatherRank] at hr
    obtain ⟨row, hrow, hmid, heq⟩ := hr
    exact ⟨row, hrow, by rw [← heq]; rfl, by rw [← heq]; rfl, heq⟩
  · intro i hms htbl hmem
    rw [List.mem_map] at hmem
    obtain ⟨r, hr, hid⟩ := hmem
    rw [mem_gatherRank] at hr
    obtain ⟨row, hrow, hmid, heq⟩ := hr
    apply htbl
    have : row.id = i := by rw [← hid, ← heq]; rfl
    exact this ▸ List.mem_map_of_mem (fun r => r.id) hrow
  · intro row hrow
    show scoreFor ms row.id = 0
    unfold scoreFor
    have : ms.find? (fun m => decide (m.1 = row.id)) = none := by
      rw [List.find?_eq_none]
      intro m hm
      simp only [decide_eq_true_eq]
      intro hc
      exact hrow (hc ▸ List.mem_map_of_mem (fun m => m.1) hm)
    rw [this]

/-- Witness for `c10_hydration`: a stored row whose id is not matched gets
score 0, and an unmatched-unstored id is absent. -/
theorem c10_hydration_witness :
    (hydrate001 [(("a").data, 5)] [] ⟨("b").data, ("d").data, 0, ("y").data⟩).score = 0 :=
  (c10_hydration [(("a").data, 5)] [⟨("a").data, ("d").data, 0, ("x").data⟩] []).2.2
    ⟨("b").data, ("d").data, 0, ("y").data⟩ (by decide)

/-- Unfolding equation for the agent pipeline, convenient for case analysis. -/
theorem runAgent001_eq (o : AgentOracle) (tbl : List ChunkRow) (docs : List DocRow) (q : Str) :
    runAgent001 o tbl docs q =
      match (planOf o.planParse q).subQueries with
      | none => (1, none)
      | some sqs =>
        if gatherRank (((sqs.map o.embed).map o.vecQuery).flatten) tbl docs = [] then
          (1, some ⟨planOf o.planParse q,
            reportSources (gatherRank (((sqs.map o.embed).map o.vecQuery).flatten) tbl docs),
            noInfoAnswer⟩)
        else
          (2, some ⟨planOf o.planParse q,
            reportSources (gatherRank (((sqs.map o.embed).map o.vecQuery).flatten) tbl docs),
            o.generate (synthSystem001 (planOf o.planParse q))
              (synthUser001
                (gatherRank (((sqs.map o.embed).map o.vecQuery).flatten) tbl docs) q)⟩) := rfl

/-- Unfolding equation of the pipeline when the plan has no readable
sub-queries (the gather step fails at runtime). -/
theorem runAgent001_none_eq (o : AgentOracle) (tbl : List ChunkRow) (docs : List DocRow)
    (q : Str) (h : (planOf o.planParse q).subQueries = none) :
    runAgent001 o tbl docs q = (1, none) := by
  rw [runAgent001_eq, h]

/-- Unfolding equation of the pipeline when the plan carries sub-queries. -/
theorem runAgent001_some_eq (o : AgentOracle) (tbl : List ChunkRow) (docs : List DocRow)
    (q : Str) (sqs : List Str) (h : (planOf o.planParse q).subQueries = some sqs) :
    runAgent001 o tbl docs q =
      if gatherRank (((sqs.map o.embed).map o.vecQuery).flatten) tbl docs = [] then
        (1, some ⟨planOf o.planParse q,
          reportSources (gatherRank (((sqs.map o.embed).map o.vecQuery).flatten) tbl docs),
          noInfoAnswer⟩)
      else
        (2, some ⟨planOf o.planParse q,
          reportSources (gatherRank (((sqs.map o.embed).map o.vecQuery).flatten) tbl docs),
          o.generate (synthSystem001 (planOf o.planParse q))
            (synthUser001
              (gatherRank (((sqs.map o.embed).map o.vecQuery).flatten) tbl docs) q)⟩) := by
  rw [runAgent001_eq, h]

theorem reportSources_eq (rs : List SearchResult) : reportSources rs = truthySourceUrls rs := by
  induction rs with
  | nil => rfl
  | cons r t ih =>
    unfold reportSources truthySourceUrls
    unfold reportSources truthySourceUrls at ih
    simp only [List.map_cons, List.filterMap_cons]
    cases hr : r.sourceUrl with
    | none =>
      simp only [List.filter_cons, jsTruthy, Bool.false_eq_true, if_false]
      exact ih
    | some u =>
      match u with
      | [] =>
        simp only [List.filter_cons, jsTruthy, List.isEmpty_nil, Bool.not_true,
          Bool.false_eq_true, if_false, if_pos rfl]
        exact ih
      | c :: cs =>
        simp only [List.filter_cons, jsTruthy, List.isEmpty_cons, Bool.not_false, if_true,
          List.reduceOption_cons_of_some]
        rw [if_neg (by simp)]
        rw [ih]

/-- Property asserted by claim C4 as amended. AgentWorkflow: for every
research request whose ranked result set is empty, the pipeline reports the
fixed no-information answer with an empty sources list and the synthesize
step makes no generation call (the one recorded call is the planning step's
unconditional structured call). RAGWorkflow (which has no planner) gates its
short-circuit on the RAW MATCH LIST, before hydration: when the vector search
returns no matches the pipeline returns its fixed answer with empty sources
and zero generation calls, but when matches exist whose ids have no stored
chunk rows the ranked set is empty and the generation service is STILL
invoked once, on an empty context block, and the generated answer - not the
fixed one - is returned (with an empty sources list). -/
def C4Spec (o : AgentOracle) (tbl : List ChunkRow) (docs : List DocRow) (q : Str)
    (embed : Str → Nat) (vq : Nat → Nat → List (Str × Int)) (gen : Str → Str)
    (tbl2 : List ChunkRow) (q2 : Str) (topK : Option Nat) : Prop :=
  (∀ sqs, (planOf o.planParse q).subQueries = some sqs →
    gatherRank (((sqs.map o.embed).map o.vecQuery).flatten) tbl docs = [] →
    runAgent001 o tbl docs q = (1, some ⟨planOf o.planParse q, [], noInfoAnswer⟩)) ∧
  (vq (jsOrNat topK 5) (embed q2) = [] →
    runQueryIdx embed vq gen tbl2 q2 topK = (0, ⟨noInfoAnswerIdx, []⟩)) ∧
  (vq (jsOrNat topK 5) (embed q2) ≠ [] →
    fetchContextIdx (vq (jsOrNat topK 5) (embed q2)) tbl2 = [] →
    runQueryIdx embed vq gen tbl2 q2 topK = (1, ⟨gen (ctxPromptIdx [] q2), []⟩))

/-- C4 (amended). In AgentWorkflow the synthesize step tests the ranked set
itself: if it is empty the fixed answer is returned with empty sources and no
generation call is added (the count stays at the planner's 1, so the
original "never invoked for that request" fails there, see the
counterexample). In RAGWorkflow the empty-check happens on the raw match
list before hydration: zero matches short-circuit with the fixed answer and
zero generation calls, but a nonempty match list whose hydrated context is
empty still triggers one generation call on an empty context and the
generated answer is returned - the original claim also fails there (see the
counterexample). -/
theorem c4_empty_results (o : AgentOracle) (tbl : List ChunkRow) (docs : List DocRow) (q : Str)
    (embed : Str → Nat) (vq : Nat → Nat → List (Str × Int)) (gen : Str → Str)
    (tbl2 : List ChunkRow) (q2 : Str) (topK : Option Nat) :
    C4Spec o tbl docs q embed vq gen tbl2 q2 topK := by
  refine ⟨?_, ?_, ?_⟩
  · intro sqs hsq hres
    rw [runAgent001_some_eq o tbl docs q sqs hsq, if_pos hres, hres]
    rfl
  · intro hm
    simp [runQueryIdx, hm]
  · intro hne hctx
    simp only [runQueryIdx]
    rw [if_neg hne, hctx]
    rfl

/-- Witness for `c4_empty_results`: a concrete empty vector index for the
first two parts, and concrete matches with no stored rows for the third. -/
theorem c4_empty_results_witness :
    (planOf PlanParse.throws (("q").data)).subQueries = some [("q").data] ∧
    runAgent001 ⟨PlanParse.throws, fun _ => 0, fun _ => [], fun _ _ => []⟩ [] [] (("q").data)
      = (1, some ⟨planOf PlanParse.throws (("q").data), [], noInfoAnswer⟩) ∧
    runQueryIdx (fun _ => 0) (fun _ _ => []) (fun _ => []) [] (("q").data) none
      = (0, ⟨noInfoAnswerIdx, []⟩) ∧
    runQueryIdx (fun _ => 0) (fun _ _ => [(("x").data, 1)]) (fun _ => ("gen").data) []
      (("q").data) none = (1, ⟨("gen").data, []⟩) :=
  ⟨by decide,
   (c4_empty_results ⟨PlanParse.throws, fun _ => 0, fun _ => [], fun _ _ => []⟩ [] []
     (("q").data) (fun _ => 0) (fun _ _ => []) (fun _ => []) [] (("q").data) none).1
     [("q").data] (by decide) (by decide),
   (c4_empty_results ⟨PlanParse.throws, fun _ => 0, fun _ => [], fun _ _ => []⟩ [] []
     (("q").data) (fun _ => 0) (fun _ _ => []) (fun _ => []) [] (("q").data) none).2.1
     (by decide),
   (c4_empty_results ⟨PlanParse.throws, fun _ => 0, fun _ => [], fun _ _ => []⟩ [] []
     (("q").data) (fun _ => 0) (fun _ _ => [(("x").data, 1)]) (fun _ => ("gen").data) []
     (("q").data) none).2.2 (by decide) (by decide)⟩

/-- C4, original form, refuted twice. AgentWorkflow: against an empty vector
index the empty ranked set does produce the fixed answer and empty sources,
but the generation service has nevertheless been invoked once, by the
planning step (count 1, not 0). RAGWorkflow: with one vector match whose id
has no stored chunk row, the ranked (hydrated) result set is empty, yet the
generation service runs (count 1) and the returned answer is the generated
string, not the fixed no-information answer. -/
theorem c4_counterexample :
    (runAgent001 ⟨PlanParse.throws, fun _ => 0, fun _ => [], fun _ _ => []⟩ [] [] (("q").data)
      = (1, some ⟨fallbackPlan (("q").data), [], noInfoAnswer⟩) ∧ (1 : Nat) ≠ 0) ∧
    (fetchContextIdx [(("x").data, 1)] [] = [] ∧
     runQueryIdx (fun _ => 0) (fun _ _ => [(("x").data, 1)]) (fun _ => ("gen").data) []
       (("q").data) none = (1, ⟨("gen").data, []⟩) ∧
     ("gen").data ≠ noInfoAnswerIdx) :=
  ⟨⟨by decide, by decide⟩, ⟨by decide, by decide, by decide⟩⟩

/-- Property asserted by claim C5 as amended: when the planning response is
not syntactically valid JSON (`JSON.parse` throws), the plan step yields the
fallback plan - exactly one sub-query equal to the user query plus the
fallback rationale - and the pipeline proceeds without failing. -/
def C5Spec (o : AgentOracle) (tbl : List ChunkRow) (docs : List DocRow) (q : Str) : Prop :=
  o.planParse = PlanParse.throws →
    planOf o.planParse q = fallbackPlan q ∧
    (fallbackPlan q).subQueries = some [q] ∧
    (fallbackPlan q).thoughtProcess = some (("Fallback to direct query.").data) ∧
    ∃ out, (runAgent001 o tbl docs q).2 = some out ∧ out.plan = fallbackPlan q

/-- C5 (amended). The planner's try/catch falls back to the single-sub-query
plan exactly when `JSON.parse` throws; the plan step never fails and the
pipeline completes with that plan. (A syntactically valid JSON response of
the wrong shape is NOT detected - see the counterexample.) -/
theorem c5_planner_fallback (o : AgentOracle) (tbl : List ChunkRow) (docs : List DocRow)
    (q : Str) : C5Spec o tbl docs q := by
  intro h
  refine ⟨by rw [h]; rfl, rfl, rfl, ?_⟩
  have hsq : (planOf o.planParse q).subQueries = some [q] := by rw [h]; rfl
  rw [runAgent001_some_eq o tbl docs q [q] hsq]
  by_cases hres : gatherRank ((([q].map o.embed).map o.vecQuery).flatten) tbl docs = []
  · rw [if_pos hres]
    exact ⟨_, rfl, by rw [h]; rfl⟩
  · rw [if_neg hres]
    exact ⟨_, rfl, by rw [h]; rfl⟩

/-- Witness for `c5_planner_fallback` at a concrete throwing parse. -/
theorem c5_planner_fallback_witness :
    (⟨PlanParse.throws, fun _ => 0, fun _ => [], fun _ _ => []⟩ : AgentOracle).planParse
      = PlanParse.throws ∧
    ∃ out,
      (runAgent001 ⟨PlanParse.throws, fun _ => 0, fun _ => [], fun _ _ => []⟩ [] []
        (("q").data)).2 = some out ∧ out.plan = fallbackPlan (("q").data) :=
  ⟨rfl,
   (c5_planner_fallback ⟨PlanParse.throws, fun _ => 0, fun _ => [], fun _ _ => []⟩ [] []
     (("q").data) rfl).2.2.2⟩

/-- C5, original form, refuted: a planning response that is syntactically
valid JSON but not the expected structure (for example the object without the
expected keys) is not caught by the try/catch: the resulting plan has no
sub-queries at all (not exactly one equal to the query), and the gather step
then fails at runtime. -/
theorem c5_counterexample :
    (planOf (PlanParse.parsed ⟨none, none⟩) (("q").data)).subQueries = none ∧
    (runAgent001 ⟨PlanParse.parsed ⟨none, none⟩, fun _ => 0, fun _ => [], fun _ _ => []⟩
      [] [] (("q").data)).2 = none :=
  ⟨rfl, rfl⟩

/-- Property asserted by claim C6 as amended: the reported sources equal the
order-preserving list of truthy (non-null, non-empty) sourceUrl values of the
ranked result set, duplicates retained. -/
def C6Spec (o : AgentOracle) (tbl : List ChunkRow) (docs : List DocRow) (q : Str) : Prop :=
  (∀ rs : List SearchResult, reportSources rs = truthySourceUrls rs) ∧
  (∀ out, (runAgent001 o tbl docs q).2 = some out →
    ∃ sqs, (planOf o.planParse q).subQueries = some sqs ∧
      out.sources = truthySourceUrls
        (gatherRank (((sqs.map o.embed).map o.vecQuery).flatten) tbl docs))

/-- C6 (amended). The sources field of a completed research request equals the
order-preserving truthy sourceUrl list of the ranked set; no deduplication is
applied (see the counterexample for a duplicate URL). -/
theorem c6_sources (o : AgentOracle) (tbl : List ChunkRow) (docs : List DocRow) (q : Str) :
    C6Spec o tbl docs q := by
  refine ⟨reportSources_eq, ?_⟩
  intro out hout
  cases hsq : (planOf o.planParse q).subQueries with
  | none =>
    rw [runAgent001_none_eq o tbl docs q hsq] at hout
    exact absurd hout (by simp)
  | some sqs =>
    rw [runAgent001_some_eq o tbl docs q sqs hsq] at hout
    refine ⟨sqs, rfl, ?_⟩
    by_cases hres : gatherRank (((sqs.map o.embed).map o.vecQuery).flatten) tbl docs = []
    · rw [if_pos hres] at hout
      have h2 := Option.some.inj hout
      rw [← h2]
      exact reportSources_eq _
    · rw [if_neg hres] at hout
      have h2 := Option.some.inj hout
      rw [← h2]
      exact reportSources_eq _

/-- Witness for `c6_sources` at a concrete completed run. -/
theorem c6_sources_witness :
    ∃ sqs,
      (planOf PlanParse.throws (("q").data)).subQueries = some sqs ∧
      (⟨fallbackPlan (("q").data), [], noInfoAnswer⟩ : ResearchOut).sources
        = truthySourceUrls
          (gatherRank (((sqs.map (fun _ : Str => (0 : Nat))).map
            (fun _ : Nat => ([] : List (Str × Int)))).flatten) [] []) :=
  (c6_sources ⟨PlanParse.throws, fun _ => 0, fun _ => [], fun _ _ => []⟩ [] []
    (("q").data)).2 ⟨fallbackPlan (("q").data), [], noInfoAnswer⟩ (by decide)

/-- C6, original form, refuted: two ranked results inherited the same
document sourceUrl, and the reported sources list contains that URL twice -
the sources are not deduplicated. -/
theorem c6_counterexample :
    (runAgent001
      ⟨PlanParse.parsed ⟨some [("q").data], some []⟩, fun _ => 0,
        fun _ => [(("d_0").data, 2), (("d_1").data, 1)], fun _ _ => ("ans").data⟩
      [⟨("d_0").data, ("d").data, 0, ("x").data⟩, ⟨("d_1").data, ("d").data, 1, ("y").data⟩]
      [⟨("d").data, some (("u").data), 0, []⟩]
      (("q").data)).2 =
      some ⟨⟨some [("q").data], some []⟩, [("u").data, ("u").data],
        (("ans").data : Str)⟩ ∧
    ¬ ([("u").data, ("u").data] : List Str).Nodup := by
  constructor
  · decide
  · decide

/-- Property asserted by claim C7 as amended: empty document text yields zero
chunks and the RAGWorkflow pipeline then completes through all its steps with
the ordinary success outcome reporting zero chunks (no embedding batches, no
chunk rows, no vectors, just the document row) - not an error, but also not a
distinguished "empty document" outcome or a short-circuit; non-empty text of
at most one chunk size yields exactly one chunk. -/
def C7Spec (fresh : Nat → Str) (embed : Str → Nat) (now : Nat) (pid : Option Str)
    (srcUrl : Option Str) (md : Str) : Prop :=
  (sliceEvery 500 ([] : Str) = [] ∧
   runIngestIdx fresh embed now pid [] srcUrl md CacheIdx.empty 0 Store.empty =
     (⟨("success").data, (resolveDocId fresh 0 pid).1, 0⟩,
      ⟨some [], some [], some ()⟩, (resolveDocId fresh 0 pid).2,
      ⟨[⟨(resolveDocId fresh 0 pid).1, jsOrNull srcUrl, now, md⟩], [], []⟩)) ∧
  (∀ content : Str,
    (runIngestIdx fresh embed now pid content srcUrl md CacheIdx.empty 0 Store.empty).1.status
      = ("success").data) ∧
  (∀ content : Str, content ≠ [] → content.length ≤ 500 →
    (sliceEvery 500 content).length = 1)

/-- C7 (amended). Empty text produces zero chunks and the ordinary success
outcome with chunk count 0 (the same status value as any other ingestion, so
there is no explicit "empty document" outcome, and the persist step still runs
and writes the document row); text no longer than one chunk produces exactly
one chunk. -/
theorem c7_empty_document (fresh : Nat → Str) (embed : Str → Nat) (now : Nat)
    (pid : Option Str) (srcUrl : Option Str) (md : Str) :
    C7Spec fresh embed now pid srcUrl md := by
  refine ⟨⟨rfl, rfl⟩, fun content => rfl, ?_⟩
  intro content hne hlen
  match content with
  | [] => exact absurd rfl hne
  | a :: t =>
    rw [sliceEvery_cons 500 (by omega) a t]
    have hdrop : (a :: t).drop 500 = [] := by
      apply List.drop_eq_nil_of_le
      simpa using hlen
    rw [hdrop, sliceEvery_nil]
    rfl

/-- Witness for `c7_empty_document` at concrete parameters, exercising the
one-chunk case on a two-character document. -/
theorem c7_empty_document_witness :
    (("ab").data ≠ ([] : Str) ∧ (("ab").data : Str).length ≤ 500) ∧
    (sliceEvery 500 (("ab").data)).length = 1 :=
  ⟨⟨by decide, by decide⟩,
   (c7_empty_document (fun n => 'i' :: natChars n) (fun _ => 0) 0 none none []).2.2
     (("ab").data) (by decide) (by decide)⟩

/-- C7, original form, refuted: ingesting the empty document does NOT
short-circuit with a distinguished "empty document" outcome: the run returns
the ordinary status "success" (identical to the status of a non-empty
ingestion) with chunk count 0, and the persist step has executed - the
documents table holds the document row afterwards. -/
theorem c7_counterexample :
    (runIngestIdx (fun n => 'i' :: natChars n) (fun _ => 0) 0 none [] none []
       CacheIdx.empty 0 Store.empty).1 = ⟨("success").data, ("i0").data, 0⟩ ∧
    (runIngestIdx (fun n => 'i' :: natChars n) (fun _ => 0) 0 none (("ab").data) none []
       CacheIdx.empty 0 Store.empty).1.status = ("success").data ∧
    (runIngestIdx (fun n => 'i' :: natChars n) (fun _ => 0) 0 none [] none []
       CacheIdx.empty 0 Store.empty).2.2.2.documents.length = 1 :=
  ⟨by decide, by decide, by decide⟩

/-- Property asserted by claim C9 as amended: an invalid configuration
(overlap exceeding chunk size) makes the whole AgentWorkflow ingestion run
fail with a configuration error raised inside the chunk-content step - but
only after the init-document step has already run and persisted the document
row; a valid configuration is never rejected and the run completes. -/
def C9Spec (fresh : Nat → Str) (now : Nat) (split : SplitCfg → Str → List Str)
    (embed : Str → Nat) (cfg : SplitCfg) (p : IngestParams) : Prop :=
  (cfg.chunkSize < cfg.chunkOverlap →
    runIngest001 fresh now split embed cfg p Cache001.empty 0 Store.empty =
      (.error .configError, ⟨some (fresh 0), none, none⟩, 1,
        ⟨[⟨fresh 0, jsOrNull p.sourceUrl, now, p.metadata⟩], [], []⟩)) ∧
  (cfg.chunkOverlap ≤ cfg.chunkSize →
    (runIngest001 fresh now split embed cfg p Cache001.empty 0 Store.empty).1 =
      .ok ⟨("ingested").data, fresh 0, (split cfg p.content).length⟩)

theorem stepInitDocument_empty_eq (fresh : Nat → Str) (now : Nat) (p : IngestParams) :
    stepInitDocument fresh now p Cache001.empty 0 Store.empty =
      .ok (fresh 0, ⟨some (fresh 0), none, none⟩, 1,
        ⟨[⟨fresh 0, jsOrNull p.sourceUrl, now, p.metadata⟩], [], []⟩) := rfl

/-- Unfolding equation for an AgentWorkflow ingestion run from an empty cache
and store: the init-document step always succeeds, so the run is decided by
the chunk-content step and, on success, the embed-and-store step. -/
theorem runIngest001_empty_eq (fresh : Nat → Str) (now : Nat)
    (split : SplitCfg → Str → List Str) (embed : Str → Nat) (cfg : SplitCfg)
    (p : IngestParams) :
    runIngest001 fresh now split embed cfg p Cache001.empty 0 Store.empty =
      match stepChunkContent split cfg p (fresh 0) ⟨some (fresh 0), none, none⟩ with
      | .error e => (.error e, ⟨some (fresh 0), none, none⟩, 1,
          ⟨[⟨fresh 0, jsOrNull p.sourceUrl, now, p.metadata⟩], [], []⟩)
      | .ok (chs, c₂) =>
        match stepEmbedAndStore embed chs c₂
            ⟨[⟨fresh 0, jsOrNull p.sourceUrl, now, p.metadata⟩], [], []⟩ with
        | (n, c₃, st₂) => (.ok ⟨("ingested").data, fresh 0, n⟩, c₃, 1, st₂) := rfl

/-- C9 (amended). The overlap-exceeds-size configuration is rejected by the
splitter construction inside the chunk-content step, failing the pipeline
with a configuration error after the init-document step has already written
the document row; valid configurations are never rejected this way. -/
theorem c9_config_rejection (fresh : Nat → Str) (now : Nat)
    (split : SplitCfg → Str → List Str) (embed : Str → Nat) (cfg : SplitCfg)
    (p : IngestParams) : C9Spec fresh now split embed cfg p := by
  constructor
  · intro hbad
    rw [runIngest001_empty_eq]
    have hchk : stepChunkContent split cfg p (fresh 0) ⟨some (fresh 0), none, none⟩
        = .error .configError := by
      unfold stepChunkContent
      rw [if_neg]
      simp only [splitCfgOk, decide_eq_true_eq]
      omega
    rw [hchk]
  · intro hgood
    rw [runIngest001_empty_eq]
    have hchk : stepChunkContent split cfg p (fresh 0) ⟨some (fresh 0), none, none⟩
        = .ok (mkChunks (fresh 0) (split cfg p.content),
            ⟨some (fresh 0), some (mkChunks (fresh 0) (split cfg p.content)), none⟩) := by
      unfold stepChunkContent
      rw [if_pos]
      simp only [splitCfgOk, decide_eq_true_eq]
      omega
    rw [hchk]
    show Except.ok (⟨("ingested").data, fresh 0,
        (mkChunks (fresh 0) (split cfg p.content)).length⟩ : IngestOut) = _
    rw [mkChunks_length]

/-- Witness for `c9_config_rejection`: the shipped configuration (500, 50) is
accepted, an inverted configuration (1, 2) is rejected after init-document. -/
theorem c9_config_rejection_witness :
    ((⟨1, 2⟩ : SplitCfg).chunkSize < (⟨1, 2⟩ : SplitCfg).chunkOverlap ∧
      runIngest001 (fun n => 'i' :: natChars n) 0 (fun _ _ => []) (fun _ => 0) ⟨1, 2⟩
        ⟨("ab").data, none, []⟩ Cache001.empty 0 Store.empty =
        (.error .configError, ⟨some (("i0").data), none, none⟩, 1,
          ⟨[⟨("i0").data, none, 0, []⟩], [], []⟩)) ∧
    ((⟨500, 50⟩ : SplitCfg).chunkOverlap ≤ (⟨500, 50⟩ : SplitCfg).chunkSize ∧
      (runIngest001 (fun n => 'i' :: natChars n) 0 (fun _ _ => []) (fun _ => 0) ⟨500, 50⟩
        ⟨("ab").data, none, []⟩ Cache001.empty 0 Store.empty).1 =
        .ok ⟨("ingested").data, ("i0").data, 0⟩) :=
  ⟨⟨by decide, (c9_config_rejection (fun n => 'i' :: natChars n) 0 (fun _ _ => [])
      (fun _ => 0) ⟨1, 2⟩ ⟨("ab").data, none, []⟩).1 (by decide)⟩,
   ⟨by decide, (c9_config_rejection (fun n => 'i' :: natChars n) 0 (fun _ _ => [])
      (fun _ => 0) ⟨500, 50⟩ ⟨("ab").data, none, []⟩).2 (by decide)⟩⟩

/-- C9, original form, refuted: with an invalid configuration the run does
fail with a configuration error and the error is raised when the splitter is
constructed - but that happens inside the chunk-content step, AFTER the
init-document pipeline step has run: the document row is already in the
store, so the configuration is not rejected "before any pipeline step runs". -/
theorem c9_counterexample :
    (runIngest001 (fun n => 'i' :: natChars n) 0 (fun _ _ => []) (fun _ => 0) ⟨1, 2⟩
       ⟨("ab").data, none, []⟩ Cache001.empty 0 Store.empty).1 = .error .configError ∧
    (runIngest001 (fun n => 'i' :: natChars n) 0 (fun _ _ => []) (fun _ => 0) ⟨1, 2⟩
       ⟨("ab").data, none, []⟩ Cache001.empty 0 Store.empty).2.2.2.documents.length = 1 :=
  ⟨rfl, rfl⟩

theorem foldPersist_documents (embed : Str → Nat) (bs : List (List DocumentChunk)) (st : Store) :
    (bs.foldl (fun s b => persistBatch001 embed b s) st).documents = st.documents := by
  induction bs generalizing st with
  | nil => rfl
  | cons b t ih => exact ih (persistBatch001 embed b st)

theorem foldPersist_chunks (embed : Str → Nat) (bs : List (List DocumentChunk)) (st : Store) :
    (bs.foldl (fun s b => persistBatch001 embed b s) st).chunks =
      upsertAllBy (fun r => r.id) ((bs.flatten).map chunkRowOf) st.chunks := by
  induction bs generalizing st with
  | nil => rfl
  | cons b t ih =>
    show (t.foldl (fun s b => persistBatch001 embed b s) (persistBatch001 embed b st)).chunks = _
    rw [ih (persistBatch001 embed b st), List.flatten_cons, List.map_append,
      upsertAllBy_append]
    rfl

theorem foldPersist_vectors (embed : Str → Nat) (bs : List (List DocumentChunk)) (st : Store) :
    (bs.foldl (fun s b => persistBatch001 embed b s) st).vectors =
      upsertAllBy (fun v => v.id) ((bs.flatten).map (vecRowOf001 embed)) st.vectors := by
  induction bs generalizing st with
  | nil => rfl
  | cons b t ih =>
    show (t.foldl (fun s b => persistBatch001 embed b s) (persistBatch001 embed b st)).vectors = _
    rw [ih (persistBatch001 embed b st), List.flatten_cons, List.map_append,
      upsertAllBy_append]
    rfl

theorem chunkRows_map_id (docId : Str) (raw : List Str) :
    (((mkChunks docId raw).map chunkRowOf).map (fun r => r.id)) = chunkIdList docId raw.length := by
  rw [List.map_map]
  exact mkChunks_map_id docId raw

theorem vecRows001_map_id (embed : Str → Nat) (docId : Str) (raw : List Str) :
    (((mkChunks docId raw).map (vecRowOf001 embed)).map (fun v => v.id))
      = chunkIdList docId raw.length := by
  rw [List.map_map]
  exact mkChunks_map_id docId raw

/-- Unfolding equation for the replay of an AgentWorkflow ingestion instance
from the crashed state: the two memoized steps replay from cache and only the
embed-and-store step re-executes its body over the partially persisted
store. -/
theorem runIngest001_replay_eq (fresh : Nat → Str) (now : Nat)
    (split : SplitCfg → Str → List Str) (embed : Str → Nat) (cfg : SplitCfg)
    (p : IngestParams) (m q : Nat) :
    runIngest001 fresh now split embed cfg p
      (crashedState001 fresh now split embed cfg p m q).1
      (crashedState001 fresh now split embed cfg p m q).2.1
      (crashedState001 fresh now split embed cfg p m q).2.2 =
      (.ok ⟨("ingested").data, fresh 0, (mkChunks (fresh 0) (split cfg p.content)).length⟩,
       ⟨some (fresh 0), some (mkChunks (fresh 0) (split cfg p.content)),
        some (mkChunks (fresh 0) (split cfg p.content)).length⟩, 1,
       (sliceEvery 20 (mkChunks (fresh 0) (split cfg p.content))).foldl
         (fun s b => persistBatch001 embed b s)
         (crashedState001 fresh now split embed cfg p m q).2.2) := rfl

/-- Property asserted by claim C1 as amended. AgentWorkflow: replaying the
ingestion pipeline after a crash inside the embed-and-store step (any prefix
of m chunk rows and q vectors already persisted; the init-document and
chunk-content steps replayed from cache) completes with exactly one document
row (the memoized id `fresh 0`), exactly the N chunk rows with ids
`{docId}_{i}` for i < N (pairwise distinct), exactly N vectors with the same
ids, and the id supply consumed exactly once. RAGWorkflow: replaying after a
crash between the embed-chunks and persist-data steps also leaves one
document row, N chunk rows and N vectors with pairwise-distinct ids - but the
document id is resolved outside any step, so the replay draws a second id
from the supply when the caller supplied none (the counterexample). -/
def C1Spec (fresh : Nat → Str) (now : Nat) (split : SplitCfg → Str → List Str)
    (embed : Str → Nat) (p : IngestParams) (m q : Nat) : Prop :=
  (runIngest001 fresh now split embed ⟨500, 50⟩ p
      (crashedState001 fresh now split embed ⟨500, 50⟩ p m q).1
      (crashedState001 fresh now split embed ⟨500, 50⟩ p m q).2.1
      (crashedState001 fresh now split embed ⟨500, 50⟩ p m q).2.2 =
    (.ok ⟨("ingested").data, fresh 0, (split ⟨500, 50⟩ p.content).length⟩,
     ⟨some (fresh 0), some (mkChunks (fresh 0) (split ⟨500, 50⟩ p.content)),
      some (split ⟨500, 50⟩ p.content).length⟩, 1,
     ⟨[⟨fresh 0, jsOrNull p.sourceUrl, now, p.metadata⟩],
      (mkChunks (fresh 0) (split ⟨500, 50⟩ p.content)).map chunkRowOf,
      (mkChunks (fresh 0) (split ⟨500, 50⟩ p.content)).map (vecRowOf001 embed)⟩)) ∧
  (((mkChunks (fresh 0) (split ⟨500, 50⟩ p.content)).map chunkRowOf).map (fun r => r.id)
      = chunkIdList (fresh 0) (split ⟨500, 50⟩ p.content).length ∧
   ((mkChunks (fresh 0) (split ⟨500, 50⟩ p.content)).map (vecRowOf001 embed)).map
      (fun v => v.id) = chunkIdList (fresh 0) (split ⟨500, 50⟩ p.content).length ∧
   (chunkIdList (fresh 0) (split ⟨500, 50⟩ p.content).length).Nodup ∧
   ((mkChunks (fresh 0) (split ⟨500, 50⟩ p.content)).map chunkRowOf).length
      = (split ⟨500, 50⟩ p.content).length ∧
   ((mkChunks (fresh 0) (split ⟨500, 50⟩ p.content)).map (vecRowOf001 embed)).length
      = (split ⟨500, 50⟩ p.content).length)

theorem replay001_idempotent (fresh : Nat → Str) (now : Nat)
    (split : SplitCfg → Str → List Str) (embed : Str → Nat) (p : IngestParams) (m q : Nat) :
    C1Spec fresh now split embed p m q := by
  have hids := chunkRows_map_id (fresh 0) (split ⟨500, 50⟩ p.content)
  have hvids := vecRows001_map_id embed (fresh 0) (split ⟨500, 50⟩ p.content)
  have hnd := chunkIdList_nodup (fresh 0) (split ⟨500, 50⟩ p.content).length
  have hndr : (((mkChunks (fresh 0) (split ⟨500, 50⟩ p.content)).map chunkRowOf).map
      (fun r => r.id)).Nodup := by rw [hids]; exact hnd
  have hndv : (((mkChunks (fresh 0) (split ⟨500, 50⟩ p.content)).map (vecRowOf001 embed)).map
      (fun v => v.id)).Nodup := by rw [hvids]; exact hnd
  constructor
  · rw [runIngest001_replay_eq]
    have hlen : (mkChunks (fresh 0) (split ⟨500, 50⟩ p.content)).length
        = (split ⟨500, 50⟩ p.content).length := mkChunks_length _ _
    have hstore :
        (sliceEvery 20 (mkChunks (fresh 0) (split ⟨500, 50⟩ p.content))).foldl
          (fun s b => persistBatch001 embed b s)
          (crashedState001 fresh now split embed ⟨500, 50⟩ p m q).2.2 =
        ⟨[⟨fresh 0, jsOrNull p.sourceUrl, now, p.metadata⟩],
         (mkChunks (fresh 0) (split ⟨500, 50⟩ p.content)).map chunkRowOf,
         (mkChunks (fresh 0) (split ⟨500, 50⟩ p.content)).map (vecRowOf001 embed)⟩ := by
      have hdoc := foldPersist_documents embed
        (sliceEvery 20 (mkChunks (fresh 0) (split ⟨500, 50⟩ p.content)))
        (crashedState001 fresh now split embed ⟨500, 50⟩ p m q).2.2
      have hch := foldPersist_chunks embed
        (sliceEvery 20 (mkChunks (fresh 0) (split ⟨500, 50⟩ p.content)))
        (crashedState001 fresh now split embed ⟨500, 50⟩ p m q).2.2
      have hvec := foldPersist_vectors embed
        (sliceEvery 20 (mkChunks (fresh 0) (split ⟨500, 50⟩ p.content)))
        (crashedState001 fresh now split embed ⟨500, 50⟩ p m q).2.2
      rw [flatten_sliceEvery 20 (by omega)] at hch hvec
      have hcrashch : (crashedState001 fresh now split embed ⟨500, 50⟩ p m q).2.2.chunks
          = ((mkChunks (fresh 0) (split ⟨500, 50⟩ p.content)).map chunkRowOf).take m := by
        show upsertAllBy (fun r => r.id)
          (((mkChunks (fresh 0) (split ⟨500, 50⟩ p.content)).map chunkRowOf).take m) [] = _
        apply upsertAllBy_nil_store
        rw [List.map_take]
        exact hndr.sublist (List.map_take .. ▸ (List.take_sublist m _).map _)
      have hcrashvec : (crashedState001 fresh now split embed ⟨500, 50⟩ p m q).2.2.vectors
          = ((mkChunks (fresh 0) (split ⟨500, 50⟩ p.content)).map (vecRowOf001 embed)).take q := by
        show upsertAllBy (fun v => v.id)
          (((mkChunks (fresh 0) (split ⟨500, 50⟩ p.content)).map (vecRowOf001 embed)).take q) []
          = _
        apply upsertAllBy_nil_store
        rw [List.map_take]
        exact hndv.sublist (List.map_take .. ▸ (List.take_sublist q _).map _)
      have hdocs : (crashedState001 fresh now split embed ⟨500, 50⟩ p m q).2.2.documents
          = [⟨fresh 0, jsOrNull p.sourceUrl, now, p.metadata⟩] := rfl
      rw [hcrashch] at hch
      rw [hcrashvec] at hvec
      rw [upsertAllBy_take _ _ hndr m] at hch
      rw [upsertAllBy_take _ _ hndv q] at hvec
      cases hfold : (sliceEvery 20 (mkChunks (fresh 0) (split ⟨500, 50⟩ p.content))).foldl
          (fun s b => persistBatch001 embed b s)
          (crashedState001 fresh now split embed ⟨500, 50⟩ p m q).2.2 with
      | mk d c v =>
        rw [hfold] at hdoc hch hvec
        have hd : d = [⟨fresh 0, jsOrNull p.sourceUrl, now, p.metadata⟩] := by
          have h0 := hdoc
          rw [hdocs] at h0
          exact h0
        have hc : c = (mkChunks (fresh 0) (split ⟨500, 50⟩ p.content)).map chunkRowOf := hch
        have hv : v = (mkChunks (fresh 0) (split ⟨500, 50⟩ p.content)).map (vecRowOf001 embed) :=
          hvec
        rw [hd, hc, hv]
    rw [hstore, hlen]
  · exact ⟨hids, hvids, hnd,
      by rw [List.length_map, mkChunks_length],
      by rw [List.length_map, mkChunks_length]⟩

/-- The cache and id-supply counter of a RAGWorkflow ingestion instance that
started from an empty store, completed (and memoized) the chunk-document and
embed-chunks steps, and crashed before persist-data ran (the store is still
empty). -/
def crashedStateIdx (fresh : Nat → Str) (embed : Str → Nat) (pid : Option Str)
    (content : Str) (srcUrl : Option Str) : CacheIdx × Nat :=
  let d := resolveDocId fresh 0 pid
  let s1 := stepChunkDocument d.1 content CacheIdx.empty
  let s2 := stepEmbedChunks embed srcUrl s1.1 s1.2
  (s2.2, d.2)

theorem stepEmbedChunksIdx_ids (embed : Str → Nat) (srcUrl : Option Str)
    (chs : List DocumentChunk) :
    ((((sliceEvery 5 chs).map (fun b => b.map (vecRowOfIdx embed srcUrl))).flatten).map
      (fun v => v.id)) = chs.map (fun c => c.id) := by
  have h1 : ((sliceEvery 5 chs).map (fun b => b.map (vecRowOfIdx embed srcUrl))).flatten
      = (sliceEvery 5 chs).flatten.map (vecRowOfIdx embed srcUrl) := by simp
  rw [h1, flatten_sliceEvery 5 (by omega), List.map_map]
  rfl

/-- C1 as amended, RAGWorkflow side: the replay after a crash between
embed-chunks and persist-data leaves exactly one document row, N chunk rows
and N vectors with pairwise-distinct ids (N the chunk count). The resolved
document id and the supply counter are whatever `resolveDocId` yields on the
replay - they are not memoized. -/
def C1SpecIdx (fresh : Nat → Str) (embed : Str → Nat) (now : Nat) (pid : Option Str)
    (content : Str) (srcUrl : Option Str) (md : Str) : Prop :=
  (runIngestIdx fresh embed now pid content srcUrl md
      (crashedStateIdx fresh embed pid content srcUrl).1
      (crashedStateIdx fresh embed pid content srcUrl).2 Store.empty).2.2.2.documents.length
    = 1 ∧
  (runIngestIdx fresh embed now pid content srcUrl md
      (crashedStateIdx fresh embed pid content srcUrl).1
      (crashedStateIdx fresh embed pid content srcUrl).2 Store.empty).2.2.2.chunks.length
    = (sliceEvery 500 content).length ∧
  (runIngestIdx fresh embed now pid content srcUrl md
      (crashedStateIdx fresh embed pid content srcUrl).1
      (crashedStateIdx fresh embed pid content srcUrl).2 Store.empty).2.2.2.vectors.length
    = (sliceEvery 500 content).length ∧
  ((runIngestIdx fresh embed now pid content srcUrl md
      (crashedStateIdx fresh embed pid content srcUrl).1
      (crashedStateIdx fresh embed pid content srcUrl).2 Store.empty).2.2.2.chunks.map
        (fun r => r.id)).Nodup ∧
  ((runIngestIdx fresh embed now pid content srcUrl md
      (crashedStateIdx fresh embed pid content srcUrl).1
      (crashedStateIdx fresh embed pid content srcUrl).2 Store.empty).2.2.2.vectors.map
        (fun v => v.id)).Nodup

theorem replayIdx_counts (fresh : Nat → Str) (embed : Str → Nat) (now : Nat)
    (pid : Option Str) (content : Str) (srcUrl : Option Str) (md : Str) :
    C1SpecIdx fresh embed now pid content srcUrl md := by
  have hids : (((mkChunks (resolveDocId fresh 0 pid).1 (sliceEvery 500 content)).map
      chunkRowOf).map (fun r => r.id)).Nodup := by
    rw [chunkRows_map_id]
    exact chunkIdList_nodup _ _
  have hvs := stepEmbedChunksIdx_ids embed srcUrl
    (mkChunks (resolveDocId fresh 0 pid).1 (sliceEvery 500 content))
  have hvids : ((((sliceEvery 5 (mkChunks (resolveDocId fresh 0 pid).1
      (sliceEvery 500 content))).map (fun b => b.map (vecRowOfIdx embed srcUrl))).flatten).map
        (fun v => v.id)).Nodup := by
    rw [hvs, mkChunks_map_id]
    exact chunkIdList_nodup _ _
  have hrun : runIngestIdx fresh embed now pid content srcUrl md
      (crashedStateIdx fresh embed pid content srcUrl).1
      (crashedStateIdx fresh embed pid content srcUrl).2 Store.empty =
      (⟨("success").data, (resolveDocId fresh (crashedStateIdx fresh embed pid content srcUrl).2 pid).1,
        (mkChunks (resolveDocId fresh 0 pid).1 (sliceEvery 500 content)).length⟩,
       ⟨some (mkChunks (resolveDocId fresh 0 pid).1 (sliceEvery 500 content)),
        some (((sliceEvery 5 (mkChunks (resolveDocId fresh 0 pid).1
          (sliceEvery 500 content))).map (fun b => b.map (vecRowOfIdx embed srcUrl))).flatten),
        some ()⟩,
       (resolveDocId fresh (crashedStateIdx fresh embed pid content srcUrl).2 pid).2,
       ⟨[⟨(resolveDocId fresh (crashedStateIdx fresh embed pid content srcUrl).2 pid).1,
          jsOrNull srcUrl, now, md⟩],
        upsertAllBy (fun r => r.id)
          ((mkChunks (resolveDocId fresh 0 pid).1 (sliceEvery 500 content)).map chunkRowOf) [],
        upsertAllBy (fun v => v.id)
          (((sliceEvery 5 (mkChunks (resolveDocId fresh 0 pid).1
            (sliceEvery 500 content))).map (fun b => b.map (vecRowOfIdx embed srcUrl))).flatten)
          []⟩) := rfl
  unfold C1SpecIdx
  rw [hrun]
  have hl := congrArg List.length hvs
  rw [List.length_map, List.length_map] at hl
  refine ⟨rfl, ?_, ?_, ?_, ?_⟩
  · simp only [upsertAllBy_nil_store _ _ hids]
    rw [List.length_map, mkChunks_length]
  · simp only [upsertAllBy_nil_store _ _ hvids]
    rw [hl, mkChunks_length]
  · simp only [upsertAllBy_nil_store _ _ hids]
    exact hids
  · simp only [upsertAllBy_nil_store _ _ hvids]
    exact hvids

/-- C1 (amended). Replaying either ingestion pipeline after a crash between
the embed and persist writes yields exactly one document row, N chunk rows
and N vectors with pairwise-distinct ids; in AgentWorkflow the document id is
additionally generated exactly once (inside the memoized init-document step)
and the chunk ids are `{docId}_{index}` for the memoized id; in RAGWorkflow
the id resolution re-runs on replay (see the counterexample). -/
theorem c1_replay_idempotent (fresh : Nat → Str) (now : Nat)
    (split : SplitCfg → Str → List Str) (embed : Str → Nat) (p : IngestParams) (m q : Nat)
    (pid : Option Str) (content : Str) (srcUrl : Option Str) (md : Str) :
    C1Spec fresh now split embed p m q ∧ C1SpecIdx fresh embed now pid content srcUrl md :=
  ⟨replay001_idempotent fresh now split embed p m q,
   replayIdx_counts fresh embed now pid content srcUrl md⟩

/-- C1, original form, refuted on RAGWorkflow: the document id is resolved by
`params.id || nanoid()` OUTSIDE any durable step, so replaying after a crash
between the embed and persist steps draws a second id from the supply (the
final counter is 2, not 1), and the persisted document row carries the
replay-generated id "i1" while the chunk rows still reference the first
execution's id "i0" - the chunk ids are not derived from the persisted
document id. -/
theorem c1_counterexample :
    (runIngestIdx (fun n => 'i' :: natChars n) (fun _ => 0) 0 none (("ab").data) none []
       (crashedStateIdx (fun n => 'i' :: natChars n) (fun _ => 0) none (("ab").data) none).1
       (crashedStateIdx (fun n => 'i' :: natChars n) (fun _ => 0) none (("ab").data) none).2
       Store.empty).2.2.1 = 2 ∧
    (runIngestIdx (fun n => 'i' :: natChars n) (fun _ => 0) 0 none (("ab").data) none []
       (crashedStateIdx (fun n => 'i' :: natChars n) (fun _ => 0) none (("ab").data) none).1
       (crashedStateIdx (fun n => 'i' :: natChars n) (fun _ => 0) none (("ab").data) none).2
       Store.empty).2.2.2.documents.map (fun d => d.id) = [("i1").data] ∧
    (runIngestIdx (fun n => 'i' :: natChars n) (fun _ => 0) 0 none (("ab").data) none []
       (crashedStateIdx (fun n => 'i' :: natChars n) (fun _ => 0) none (("ab").data) none).1
       (crashedStateIdx (fun n => 'i' :: natChars n) (fun _ => 0) none (("ab").data) none).2
       Store.empty).2.2.2.chunks.map (fun r => r.documentId) = [("i0").data] :=
  ⟨by decide, by decide, by decide⟩

end Realcolab
